import Mathlib

/-!
Verification of the block/inode/directory/RW layers of the
File-System-Project repository (src/solution/src/*.rs).

The four Rust structs (BlockFS, InodeFS, DirFS, RWInodeFS) duplicate the
same method bodies for the shared layers (the only textual difference is
the error-wrapping and the equivalent bounds test `i > ninodes - 1`
versus `i + 1 > ninodes`); we embed each operation once.

External collaborators (the `cplfs_api` crate: Device, Block, SuperBlock,
DInode, DirEntry, Buffer, the serialization framework and the constants
DINODE_SIZE / DIRENTRY_SIZE / DIRNAME_SIZE / DIRECT_POINTERS) are not under
src/; following spec sections 3 and 6 they are modelled as follows and the
definitions carrying them say so in their doc comments:
  - a device block is an array of exactly `block_size` bytes with
    bounds-checked reads/writes of byte slices at offsets;
  - serialize/deserialize of fixed-layout records at byte offsets is
    modelled by keeping the decoded records of the inode region and of the
    directory-entry view of data blocks directly, at the block/offset the
    code computes (the byte encodings of DInode and DirEntry are internal
    to the external serialization framework);
  - a freshly created device is all zeroes, and zero bytes decode to the
    all-zero records (`DInode::default()`, an empty directory entry);
  - machine integers are u64; all values in the executions proved about
    stay far below 2^64, so they are embedded as Nat, and the places where
    Rust would panic (division by zero, slice out of range, array index
    out of range, unwrap of an error) are embedded as an explicit error.
-/

namespace FsSpec

/-- Fixed on-disk constants of the external `cplfs_api` crate
(`DINODE_SIZE`, `DIRENTRY_SIZE`, `DIRNAME_SIZE`, `DIRECT_POINTERS`).
Modelled from the spec: section 3 keeps them abstract, so they are
parameters here. -/
structure Cfg where
  dinodeSize : Nat
  direntrySize : Nat
  dirnameSize : Nat
  ndirect : Nat
deriving DecidableEq, Repr

/-- The superblock record (block 0): seven integers, spec section 3,
`cplfs_api::types::SuperBlock`. -/
structure SuperBlock where
  block_size : Nat
  nblocks : Nat
  ninodes : Nat
  inodestart : Nat
  ndatablocks : Nat
  bmapstart : Nat
  datastart : Nat
deriving DecidableEq, Repr

/-- File types of an on-disk inode. -/
inductive FType
  | TFree
  | TFile
  | TDir
deriving DecidableEq, Repr

/-- On-disk inode. `direct_blocks` is the fixed array of
`DIRECT_POINTERS` absolute data-block addresses (0 = unused). -/
structure DInode where
  ft : FType
  nlink : Nat
  size : Nat
  direct_blocks : List Nat
deriving DecidableEq, Repr

/-- `DInode::default()`: what zero bytes of an inode slot decode to. -/
def dfltDInode (cfg : Cfg) : DInode :=
  { ft := .TFree, nlink := 0, size := 0,
    direct_blocks := List.replicate cfg.ndirect 0 }

/-- The root inode written by the directory-layer `mkfs`
(c_dirs_support.rs lines 103-105). -/
def rootDInode (cfg : Cfg) : DInode :=
  { dfltDInode cfg with ft := .TDir, nlink := 1 }

/-- All error outcomes. The FS error enums of the four layers are
flattened (each layer only wraps the lower layers' errors), `DeviceError`
stands for any `APIError` bubbled up from the external device/Block API,
and `Panic` marks the places where the Rust code would panic. -/
inductive FsError
  | SuperBlockInvalid
  | DeviceConfigurationInvalid
  | OutsideOfTheBoundaries
  | MemoryAlreadyDeallocated
  | InodeInitializationError
  | InodeAlreadyDeallocated
  | InodeNotDirectory
  | SearchedDirectoryDoesntExist
  | DirEntryNameAlreadyExists
  | InodeNotInUse
  | OffsetOutsideOfInode
  | DeviceError
  | Panic
deriving DecidableEq, Repr

/-- Ceiling division, used to state the spec's region sizes and to embed
the code's `(a as f64 / b as f64).ceil()` computations (exact for the
integer ranges involved). -/
def ceilDiv (a b : Nat) : Nat := (a + b - 1) / b

/-- `sb_valid` (a_block_support.rs lines 62-90), translated clause by
clause.  `none` marks the panic on `block_size / DINODE_SIZE == 0`
(remainder by zero in Rust).  Note the code counts
`ndatablocks / (block_size * 8) + 1` bitmap blocks (floor plus one, not a
ceiling) and does not require `0 < inodestart`. -/
def sb_valid (d : Nat) (sb : SuperBlock) : Option Bool :=
  let n_super_blocks := 1
  let n_bitmap_blocks := sb.ndatablocks / (sb.block_size * 8) + 1
  let n_of_inode_in_block := sb.block_size / d
  if n_of_inode_in_block = 0 then none
  else
    let n_inode_blocks :=
      if sb.ninodes % n_of_inode_in_block = 0 then
        sb.ninodes / n_of_inode_in_block
      else
        sb.ninodes / n_of_inode_in_block + 1
    some (
      if sb.nblocks <
          sb.ndatablocks + n_inode_blocks + n_bitmap_blocks + n_super_blocks then
        false
      else if ¬ (sb.inodestart < sb.bmapstart ∧ sb.bmapstart < sb.datastart) then
        false
      else if sb.bmapstart < sb.inodestart + n_inode_blocks then
        false
      else if sb.datastart < sb.bmapstart + n_bitmap_blocks then
        false
      else if sb.nblocks < sb.datastart + sb.ndatablocks then
        false
      else
        true)

/-- The five layout invariants exactly as the spec words them
(spec section 3); this is the spec-side definition that claim C1 compares
`sb_valid` against. -/
def sb_layout_invariants (d : Nat) (sb : SuperBlock) : Prop :=
  (0 < sb.inodestart ∧ sb.inodestart < sb.bmapstart ∧ sb.bmapstart < sb.datastart) ∧
  sb.inodestart + ceilDiv sb.ninodes (sb.block_size / d) ≤ sb.bmapstart ∧
  sb.bmapstart + ceilDiv sb.ndatablocks (sb.block_size * 8) ≤ sb.datastart ∧
  sb.datastart + sb.ndatablocks ≤ sb.nblocks ∧
  1 + ceilDiv sb.ninodes (sb.block_size / d) +
    ceilDiv sb.ndatablocks (sb.block_size * 8) + sb.ndatablocks ≤ sb.nblocks

instance (d : Nat) (sb : SuperBlock) : Decidable (sb_layout_invariants d sb) := by
  unfold sb_layout_invariants; infer_instance

lemma ceilDiv_eq_ite (n m : Nat) (hm : 0 < m) :
    ceilDiv n m = if n % m = 0 then n / m else n / m + 1 := by
  have hdm := Nat.div_add_mod n m
  have hlt := Nat.mod_lt n hm
  unfold ceilDiv
  rcases Nat.eq_zero_or_pos (n % m) with hr | hr
  · rw [if_pos hr]
    have h1 : n + m - 1 = m * (n / m) + (m - 1) := by omega
    rw [h1, Nat.mul_add_div hm,
      Nat.div_eq_of_lt (show m - 1 < m by omega), Nat.add_zero]
  · rw [if_neg (Nat.pos_iff_ne_zero.mp hr)]
    have hexp : m * (n / m + 1) = m * (n / m) + m := by ring
    have h1 : n + m - 1 = m * (n / m + 1) + (n % m - 1) := by rw [hexp]; omega
    rw [h1, Nat.mul_add_div hm,
      Nat.div_eq_of_lt (show n % m - 1 < m by omega), Nat.add_zero]

lemma sb_valid_true_iff (d : Nat) (sb : SuperBlock)
    (h : 0 < sb.block_size / d) :
    sb_valid d sb = some true ↔
      (sb.inodestart < sb.bmapstart ∧ sb.bmapstart < sb.datastart ∧
       sb.inodestart + ceilDiv sb.ninodes (sb.block_size / d) ≤ sb.bmapstart ∧
       sb.bmapstart + (sb.ndatablocks / (sb.block_size * 8) + 1) ≤ sb.datastart ∧
       sb.datastart + sb.ndatablocks ≤ sb.nblocks ∧
       sb.ndatablocks + ceilDiv sb.ninodes (sb.block_size / d) +
         (sb.ndatablocks / (sb.block_size * 8) + 1) + 1 ≤ sb.nblocks) := by
  have hne : sb.block_size / d ≠ 0 := Nat.pos_iff_ne_zero.mp h
  unfold sb_valid
  simp only [if_neg hne, Option.some_inj, ← ceilDiv_eq_ite _ _ h]
  constructor
  · intro hh
    split_ifs at hh <;> omega
  · intro hh
    split_ifs <;> first | rfl | omega

lemma sb_valid_some_bs_pos {d : Nat} {sb : SuperBlock} {b : Bool}
    (h : sb_valid d sb = some b) : 0 < sb.block_size := by
  by_cases hz : sb.block_size / d = 0
  · unfold sb_valid at h
    rw [if_pos hz] at h
    exact absurd h (by simp)
  · exact Nat.lt_of_lt_of_le (Nat.pos_of_ne_zero hz) (Nat.div_le_self _ _)

lemma sb_valid_some_ipb_pos {d : Nat} {sb : SuperBlock} {b : Bool}
    (h : sb_valid d sb = some b) : 0 < sb.block_size / d := by
  by_cases hz : sb.block_size / d = 0
  · unfold sb_valid at h
    rw [if_pos hz] at h
    exact absurd h (by simp)
  · exact Nat.pos_of_ne_zero hz

/-- Claim C1, amended.  `sb_valid(sb)` returns true if and only if:
`inodestart < bmapstart < datastart` (without requiring
`0 < inodestart`); the inode region, counted with a true ceiling, fits
before `bmapstart`; the bitmap region, counted as
`ndatablocks / (block_size * 8) + 1` blocks (floor plus one, not a
ceiling), fits before `datastart`; the data region fits in `nblocks`; and
the sum of all region sizes including the single superblock — with the
bitmap again counted as floor plus one — is at most `nblocks`.  (Stated
under the precondition `0 < block_size / DINODE_SIZE`, without which the
Rust code panics on a remainder by zero.) -/
theorem C1_sb_valid_iff_code_layout (d : Nat) (sb : SuperBlock)
    (h : 0 < sb.block_size / d) :
    sb_valid d sb = some true ↔
      (sb.inodestart < sb.bmapstart ∧ sb.bmapstart < sb.datastart ∧
       sb.inodestart + ceilDiv sb.ninodes (sb.block_size / d) ≤ sb.bmapstart ∧
       sb.bmapstart + (sb.ndatablocks / (sb.block_size * 8) + 1) ≤ sb.datastart ∧
       sb.datastart + sb.ndatablocks ≤ sb.nblocks ∧
       sb.ndatablocks + ceilDiv sb.ninodes (sb.block_size / d) +
         (sb.ndatablocks / (sb.block_size * 8) + 1) + 1 ≤ sb.nblocks) :=
  sb_valid_true_iff d sb h

/-- Claim C1, counterexample.  For DINODE_SIZE = 100 and the superblock
(block_size 1000, nblocks 8003, ninodes 9, inodestart 1,
ndatablocks 8000, bmapstart 2, datastart 3) all five layout invariants of
the spec hold — the bitmap needs exactly ceil(8000/8000) = 1 block — yet
`sb_valid` returns false, because the code counts
8000 / 8000 + 1 = 2 bitmap blocks.  So `sb_valid` is not equivalent to
the five invariants. -/
theorem C1_counterexample :
    sb_valid 100 ⟨1000, 8003, 9, 1, 8000, 2, 3⟩ = some false ∧
      sb_layout_invariants 100 ⟨1000, 8003, 9, 1, 8000, 2, 3⟩ := by
  constructor
  · rfl
  · decide

/-- Claim C1, witness: the amended equivalence applied at the repository's
own `good_superblock1` test vector. -/
theorem C1_witness :
    0 < (1000 : Nat) / 100 ∧
      (sb_valid 100 ⟨1000, 100, 10, 1, 20, 6, 7⟩ = some true ↔
        ((1 : Nat) < 6 ∧ (6 : Nat) < 7 ∧
         1 + ceilDiv 10 (1000 / 100) ≤ 6 ∧
         6 + (20 / (1000 * 8) + 1) ≤ 7 ∧
         (7 : Nat) + 20 ≤ 100 ∧
         20 + ceilDiv 10 (1000 / 100) + (20 / (1000 * 8) + 1) + 1 ≤ 100)) :=
  ⟨by decide, C1_sb_valid_iff_code_layout 100 ⟨1000, 100, 10, 1, 20, 6, 7⟩ (by decide)⟩

/-! ## The filesystem state -/

/-- Pointwise update of a function. -/
def upd {α : Type} (f : Nat → α) (i : Nat) (v : α) : Nat → α :=
  fun j => if j = i then v else f j

/-- NUL, the padding character of directory-entry names. -/
def nulChar : Char := Char.ofNat 0

/-- A directory entry (`cplfs_api::types::DirEntry`): target inode number
(0 = empty slot) and a fixed-width name of `DIRNAME_SIZE` characters,
zero-padded.  Modelled from the spec: section 3. -/
structure DirEntry where
  inum : Nat
  name : List Char
deriving DecidableEq, Repr

/-- What zero bytes decode to as a directory entry: an empty slot. -/
def dfltDirEntry (cfg : Cfg) : DirEntry :=
  ⟨0, List.replicate cfg.dirnameSize nulChar⟩

/-- An in-memory copy of one device block (`cplfs_api::types::Block`).
Modelled from the spec: a block is an array of exactly `block_size` bytes
supporting raw byte reads/writes and serialize/deserialize of fixed-layout
records at byte offsets (sections 3 and 6).  The byte encoding of the
records is internal to the external serialization framework, so a block
carries both the raw-byte view used by the raw `read_data`/`write_data`
operations and the decoded directory-entry view used by
`serialize_into`/`deserialize_from` at entry offsets; every execution
verified below uses one view per block, matching the code, which never
mixes raw bytes and directory entries in the same block. -/
structure Block where
  block_no : Nat
  bytes : Nat → Nat
  ents : Nat → DirEntry

/-- The mounted filesystem: the superblock of block 0 (kept decoded:
`sup_get` re-reads block 0 on every call and `sup_put` is never invoked,
so the decoded value is constant), the inode region as decoded inode
records per absolute block and slot, the bitmap region as a flat byte
array (byte `j` of bitmap block `bmapstart + i` is `bmap (i*block_size + j)`,
exactly the addressing used by `b_alloc`/`b_free`), and the data region
in its two views.  The four regions of a layout-valid superblock are
disjoint, which is what justifies giving each its own component. -/
structure FS where
  sb : SuperBlock
  itable : Nat → Nat → DInode
  bmap : Nat → Nat
  data : Nat → Nat → Nat
  dents : Nat → Nat → DirEntry

/-! ## Block layer (a_block_support.rs) -/

/-- `b_get` (lines 133-141): passthrough to `Device::read_block`, whose
only check is `i < nblocks`.  The verified executions call it on
data-region blocks only, so it reads the data components.  Modelled from
the spec: section 4.1 and the device contract of section 6. -/
def b_get (fs : FS) (i : Nat) : Except FsError Block :=
  if i < fs.sb.nblocks then .ok ⟨i, fs.data i, fs.dents i⟩
  else .error .DeviceError

/-- `b_put` (lines 143-151): passthrough to `Device::write_block` at
`b.block_no`. -/
def b_put (fs : FS) (b : Block) : Except FsError FS :=
  if b.block_no < fs.sb.nblocks then
    .ok { fs with data := upd fs.data b.block_no b.bytes,
                  dents := upd fs.dents b.block_no b.ents }
  else .error .DeviceError

/-- `b_free` (lines 153-195): bounds-check the data-relative index, find
the bitmap block `i / (block_size*8)`, the byte and the bit inside it; if
the bit is already 0 fail with `MemoryAlreadyDeallocated`, otherwise
clear it (`data[j] ^ (1 << k)`) and write the block back.  The code's
byte-copying loop changes exactly the one byte, embedded as a point
update. -/
def b_free (fs : FS) (i : Nat) : Except FsError FS :=
  let sb := fs.sb
  if sb.ndatablocks ≤ i then .error .OutsideOfTheBoundaries
  else
    let bbn := i / (sb.block_size * 8)
    let byteIdx := (i - sb.block_size * 8 * bbn) / 8
    let k := (i - sb.block_size * 8 * bbn) % 8
    let g := bbn * sb.block_size + byteIdx
    if fs.bmap g &&& 2 ^ k ≠ 0 then
      .ok { fs with bmap := upd fs.bmap g (fs.bmap g ^^^ 2 ^ k) }
    else .error .MemoryAlreadyDeallocated

/-- `b_zero` (lines 197-208): bounds-check the data-relative index, then
write a fully zeroed block at absolute address `i + datastart` (in both
views: zero bytes decode to empty directory entries). -/
def b_zero (cfg : Cfg) (fs : FS) (i : Nat) : Except FsError FS :=
  if fs.sb.ndatablocks ≤ i then .error .OutsideOfTheBoundaries
  else
    .ok { fs with
      data := upd fs.data (i + fs.sb.datastart) (fun _ => 0),
      dents := upd fs.dents (i + fs.sb.datastart) (fun _ => dfltDirEntry cfg) }

/-- Bounded unfolding of the `while (data[j] & (1 << k)) > 0 { k += 1 }`
scan in `b_alloc`.  It is only ever run on byte values below 255, for
which at most 8 steps are taken. -/
def lzbAux : Nat → Nat → Nat
  | 0, _ => 0
  | fuel + 1, b => if b % 2 = 0 then 0 else lzbAux fuel (b / 2) + 1

/-- Smallest clear bit of a byte. -/
def lowestZeroBit (b : Nat) : Nat := lzbAux 8 b

/-- Smallest `j < n` with `p j`, scanning upward — the search pattern of
the byte/block scans in `b_alloc`. -/
def firstLt (p : Nat → Bool) : Nat → Option Nat
  | 0 => none
  | n + 1 =>
    match firstLt p n with
    | some j => some j
    | none => if p n then some n else none

/-- `b_alloc` (lines 210-271), translated step by step.  The outer loop
visits bitmap blocks `0 .. ndatablocks/(block_size*8)`; inside a block the
first byte that is not 255 is selected (`firstLt`), its lowest clear bit
`k` is set, and before the bitmap block is written back the code zeroes
the data block at data-relative index
`(datastart + i*block_size + 8*j + k) % ndatablocks` (the error check on
that same pre-index happens first and aborts with no state change).  The
returned index is recomputed as `k + 8*j + block_size*8*i`. -/
def b_alloc (cfg : Cfg) (fs : FS) : Except FsError (Nat × FS) :=
  let sb := fs.sb
  let bitmap_blocks := sb.ndatablocks / (sb.block_size * 8)
  let hit := fun (i j : Nat) => fs.bmap (i * sb.block_size + j) != 255
  match firstLt (fun i => (firstLt (hit i) sb.block_size).isSome) (bitmap_blocks + 1) with
  | none => .error .OutsideOfTheBoundaries
  | some i =>
    match firstLt (hit i) sb.block_size with
    | none => .error .OutsideOfTheBoundaries
    | some j =>
      let byte := fs.bmap (i * sb.block_size + j)
      let k := lowestZeroBit byte
      let counter := 8 * j
      let pre := sb.datastart + i * sb.block_size + counter + k
      if sb.ndatablocks + sb.datastart - 1 < pre then .error .OutsideOfTheBoundaries
      else
        match b_zero cfg fs (pre % sb.ndatablocks) with
        | .error e => .error e
        | .ok fs1 =>
          let index := k + 8 * j + sb.block_size * 8 * i
          .ok (index,
            { fs1 with bmap := upd fs1.bmap (i * sb.block_size + j) (byte ||| 2 ^ k) })

/-- State of a freshly formatted device: block-layer `mkfs`
(lines 92-107) creates a device of the requested geometry and writes the
superblock into block 0.  Modelled from the spec: `Device::new` yields a
zeroed device (section 4.1), so the fresh state has an all-zero bitmap
and data area and all-default decoded records. -/
def freshFS (cfg : Cfg) (sb : SuperBlock) : FS :=
  { sb := sb,
    itable := fun _ _ => dfltDInode cfg,
    bmap := fun _ => 0,
    data := fun _ _ => 0,
    dents := fun _ _ => dfltDirEntry cfg }

/-- Outcome of the block-layer `mkfs` proper. -/
def mkfs_block (cfg : Cfg) (sb : SuperBlock) : Except FsError FS :=
  match sb_valid cfg.dinodeSize sb with
  | none => .error .Panic
  | some false => .error .SuperBlockInvalid
  | some true => .ok (freshFS cfg sb)

/-! ## First-fit allocation from a fresh bitmap -/

lemma firstLt_eq_none {p : Nat → Bool} {n : Nat}
    (h : ∀ j, j < n → p j = false) : firstLt p n = none := by
  induction n with
  | zero => rfl
  | succ n ih =>
    unfold firstLt
    rw [ih fun j hj => h j (Nat.lt_succ_of_lt hj)]
    simp [h n (Nat.lt_succ_self n)]

lemma firstLt_eq_some {p : Nat → Bool} {n j : Nat}
    (hj : j < n) (hp : p j = true) (hbefore : ∀ i, i < j → p i = false) :
    firstLt p n = some j := by
  induction n with
  | zero => omega
  | succ n ih =>
    unfold firstLt
    rcases Nat.lt_or_ge j n with hlt | hge
    · rw [ih hlt]
    · have hjn : j = n := by omega
      subst hjn
      rw [firstLt_eq_none hbefore]
      simp [hp]

/-- Bitmap contents after the first `m` data blocks have been allocated
in order and none freed: bytes below `m/8` are 255, byte `m/8` holds the
low `m%8` bits, every later byte is 0. -/
def fillPattern (m : Nat) : Nat → Nat :=
  fun g => if g < m / 8 then 255 else if g = m / 8 then 2 ^ (m % 8) - 1 else 0

lemma lowestZeroBit_pow_sub_one : ∀ t, t < 8 → lowestZeroBit (2 ^ t - 1) = t := by
  decide

lemma or_pow_sub_one : ∀ t, t < 8 → ((2 ^ t - 1) ||| 2 ^ t) = 2 ^ (t + 1) - 1 := by
  decide

lemma pow_sub_one_lt_255 : ∀ t, t < 8 → 2 ^ t - 1 < 255 := by
  decide

lemma fillPattern_succ (m : Nat) :
    upd (fillPattern m) (m / 8) ((2 ^ (m % 8) - 1) ||| 2 ^ (m % 8)) =
      fillPattern (m + 1) := by
  funext g
  have hm8 : m % 8 < 8 := Nat.mod_lt _ (by norm_num)
  rw [or_pow_sub_one _ hm8]
  unfold upd fillPattern
  by_cases hg : g = m / 8
  · subst hg
    rw [if_pos rfl]
    rcases Nat.lt_or_ge (m % 8) 7 with hr | hr
    · rw [if_neg (show ¬ m / 8 < (m + 1) / 8 by omega),
        if_pos (show m / 8 = (m + 1) / 8 by omega),
        show (m + 1) % 8 = m % 8 + 1 from by omega]
    · have hr7 : m % 8 = 7 := by omega
      rw [if_pos (show m / 8 < (m + 1) / 8 by omega), hr7]
      norm_num
  · rw [if_neg hg]
    rcases Nat.lt_trichotomy g (m / 8) with hlt | heq | hgt
    · rw [if_pos hlt, if_pos (show g < (m + 1) / 8 by omega)]
    · exact absurd heq hg
    · rw [if_neg (show ¬ g < m / 8 by omega), if_neg hg]
      rcases Nat.lt_or_ge (m % 8) 7 with hr | hr
      · rw [if_neg (show ¬ g < (m + 1) / 8 by omega),
          if_neg (show ¬ g = (m + 1) / 8 by omega)]
      · have hr7 : m % 8 = 7 := by omega
        by_cases hg1 : g = m / 8 + 1
        · rw [if_neg (show ¬ g < (m + 1) / 8 by omega),
            if_pos (show g = (m + 1) / 8 by omega),
            show (m + 1) % 8 = 0 from by omega]
          norm_num
        · rw [if_neg (show ¬ g < (m + 1) / 8 by omega),
            if_neg (show ¬ g = (m + 1) / 8 by omega)]

/-- One step of the first-fit allocator: on a bitmap in state
`fillPattern m` with `m < ndatablocks`, `b_alloc` succeeds, returns
data-relative index `m`, advances the bitmap to `fillPattern (m+1)`, and
zeroes exactly one data-region block (not necessarily block `m`: the
zeroed index is the code's `pre % ndatablocks`). -/
lemma b_alloc_step (cfg : Cfg) (fs : FS) (m : Nat)
    (hbs : 0 < fs.sb.block_size)
    (hm : m < fs.sb.ndatablocks)
    (hmap : fs.bmap = fillPattern m) :
    ∃ fs' z,
      b_alloc cfg fs = .ok (m, fs') ∧
      fs'.sb = fs.sb ∧ fs'.itable = fs.itable ∧
      fs'.bmap = fillPattern (m + 1) ∧
      fs.sb.datastart ≤ z ∧ z < fs.sb.datastart + fs.sb.ndatablocks ∧
      fs'.data = upd fs.data z (fun _ => 0) ∧
      fs'.dents = upd fs.dents z (fun _ => dfltDirEntry cfg) := by
  set bs := fs.sb.block_size with hbs_def
  set nd := fs.sb.ndatablocks with hnd_def
  set ds := fs.sb.datastart with hds_def
  have hm8 : m % 8 < 8 := Nat.mod_lt _ (by norm_num)
  -- coordinates of bit m
  set i0 := m / (bs * 8) with hi0
  set j0 := m % (bs * 8) / 8 with hj0
  -- m / 8 = i0 * bs + j0
  have hdiv8 : m / (bs * 8) = m / 8 / bs := by
    rw [Nat.div_div_eq_div_mul, Nat.mul_comm 8 bs]
  have hmod8 : m % (bs * 8) / 8 = m / 8 % bs := by
    rw [Nat.mul_comm bs 8, Nat.mod_mul_right_div_self]
  have hbyte : i0 * bs + j0 = m / 8 := by
    rw [hi0, hj0, hdiv8, hmod8, Nat.mul_comm]
    exact Nat.div_add_mod (m / 8) bs
  -- m = (bs*8) * i0 + 8 * j0 + m % 8
  have hm8dvd : m % (bs * 8) % 8 = m % 8 :=
    Nat.mod_mod_of_dvd m ⟨bs, by ring⟩
  have hdecomp : m = bs * 8 * i0 + (8 * j0 + m % 8) := by
    have h1 := Nat.div_add_mod m (bs * 8)
    have h2 := Nat.div_add_mod (m % (bs * 8)) 8
    rw [hm8dvd] at h2
    rw [hi0, hj0]
    omega
  have hj0bs : j0 < bs := by
    rw [hj0, hmod8]; exact Nat.mod_lt _ hbs
  -- evaluate the byte scan
  have hbval : fs.bmap (i0 * bs + j0) = 2 ^ (m % 8) - 1 := by
    rw [hmap]; unfold fillPattern
    rw [hbyte]; simp
  have hbefore : ∀ g, g < m / 8 → fs.bmap g = 255 := by
    intro g hg
    rw [hmap]; unfold fillPattern
    rw [if_pos hg]
  have hafter : ∀ g, m / 8 < g → fs.bmap g = 0 := by
    intro g hg
    rw [hmap]; unfold fillPattern
    rw [if_neg (by omega), if_neg (by omega)]
  have hinner : firstLt (fun j => fs.bmap (i0 * bs + j) != 255) bs = some j0 := by
    apply firstLt_eq_some hj0bs
    · rw [hbval]
      simp only [bne_iff_ne, ne_eq]
      exact fun h => absurd h (Nat.ne_of_lt (pow_sub_one_lt_255 _ hm8))
    · intro i hi
      have : fs.bmap (i0 * bs + i) = 255 := hbefore _ (by omega)
      simp [this]
  have houter :
      firstLt (fun i => (firstLt (fun j => fs.bmap (i * bs + j) != 255) bs).isSome)
        (nd / (bs * 8) + 1) = some i0 := by
    apply firstLt_eq_some
    · have : i0 ≤ nd / (bs * 8) := Nat.div_le_div_right (by omega)
      omega
    · rw [hinner]; rfl
    · intro i hi
      have hnone : firstLt (fun j => fs.bmap (i * bs + j) != 255) bs = none := by
        apply firstLt_eq_none
        intro j hj
        have hlt : i * bs + j < m / 8 := by
          have h1 : i * bs + j < (i + 1) * bs := by
            rw [Nat.add_mul, Nat.one_mul]; omega
          have h2 : (i + 1) * bs ≤ i0 * bs := Nat.mul_le_mul_right _ (by omega)
          omega
        have := hbefore _ hlt
        simp [this]
      rw [hnone]; rfl
  -- the pre-index check passes
  have hpre_le : i0 * bs + 8 * j0 + m % 8 ≤ m := by
    have : i0 * bs ≤ bs * 8 * i0 := by
      rw [Nat.mul_comm i0 bs]
      exact Nat.mul_le_mul_right _ (by omega)
    omega
  have hmodlt : (ds + i0 * bs + 8 * j0 + m % 8) % nd < nd :=
    Nat.mod_lt _ (by omega)
  have hzero : b_zero cfg fs ((ds + i0 * bs + 8 * j0 + m % 8) % nd) =
      .ok { fs with
        data := upd fs.data ((ds + i0 * bs + 8 * j0 + m % 8) % nd + ds) (fun _ => 0),
        dents := upd fs.dents ((ds + i0 * bs + 8 * j0 + m % 8) % nd + ds)
          (fun _ => dfltDirEntry cfg) } := by
    simp only [b_zero, ← hnd_def, ← hds_def]
    rw [if_neg (by omega)]
  refine ⟨{ fs with
      bmap := upd fs.bmap (i0 * bs + j0) ((2 ^ (m % 8) - 1) ||| 2 ^ (m % 8)),
      data := upd fs.data ((ds + i0 * bs + 8 * j0 + m % 8) % nd + ds) (fun _ => 0),
      dents := upd fs.dents ((ds + i0 * bs + 8 * j0 + m % 8) % nd + ds)
        (fun _ => dfltDirEntry cfg) },
    (ds + i0 * bs + 8 * j0 + m % 8) % nd + ds,
    ?_, rfl, rfl, ?_, by omega, by omega, rfl, rfl⟩
  · simp only [b_alloc]
    simp only [← hbs_def, ← hnd_def, ← hds_def]
    simp only [houter, hinner, hbval, lowestZeroBit_pow_sub_one _ hm8]
    rw [if_neg (show ¬ nd + ds - 1 < ds + i0 * bs + 8 * j0 + m % 8 by omega)]
    simp only [hzero]
    rw [show m % 8 + 8 * j0 + bs * 8 * i0 = m from by omega]
  · show upd fs.bmap (i0 * bs + j0) ((2 ^ (m % 8) - 1) ||| 2 ^ (m % 8)) =
      fillPattern (m + 1)
    rw [hmap, hbyte, fillPattern_succ]

/-- A sequence of `n` `b_alloc` calls, collecting the returned
data-relative indices. -/
def allocList (cfg : Cfg) : FS → Nat → Except FsError (List Nat × FS)
  | fs, 0 => .ok ([], fs)
  | fs, n + 1 =>
    match b_alloc cfg fs with
    | .error e => .error e
    | .ok (k, fs1) =>
      match allocList cfg fs1 n with
      | .error e => .error e
      | .ok (l, fs2) => .ok (k :: l, fs2)

lemma fillPattern_zero : fillPattern 0 = fun _ => 0 := by
  funext g
  unfold fillPattern
  rcases Nat.eq_zero_or_pos g with hg | hg
  · subst hg; rfl
  · rw [if_neg (by omega), if_neg (by omega)]

lemma allocList_from_fill (cfg : Cfg) :
    ∀ (n : Nat) (fs : FS) (m : Nat),
      fs.bmap = fillPattern m → 0 < fs.sb.block_size →
      m + n ≤ fs.sb.ndatablocks →
      ∃ fs', allocList cfg fs n = .ok ((List.range n).map (fun t => m + t), fs') ∧
        fs'.bmap = fillPattern (m + n) ∧ fs'.sb = fs.sb := by
  intro n
  induction n with
  | zero =>
    intro fs m hmap _ _
    exact ⟨fs, rfl, by rw [hmap, Nat.add_zero], rfl⟩
  | succ n ih =>
    intro fs m hmap hbs hle
    obtain ⟨fs1, z, halloc, hsb1, _, hbm1, _, _, _, _⟩ :=
      b_alloc_step cfg fs m hbs (by omega) hmap
    obtain ⟨fs2, hrec, hbm2, hsb2⟩ :=
      ih fs1 (m + 1) hbm1 (by rw [hsb1]; exact hbs) (by rw [hsb1]; omega)
    have hl : (List.range (n + 1)).map (fun t => m + t) =
        m :: (List.range n).map (fun t => m + 1 + t) := by
      rw [List.range_succ_eq_map, List.map_cons, List.map_map, List.cons.injEq]
      refine ⟨by simp, List.map_congr_left fun t _ => ?_⟩
      simp only [Function.comp_apply]
      omega
    refine ⟨fs2, ?_,
      by rw [hbm2, show m + 1 + n = m + (n + 1) from by omega],
      by rw [hsb2, hsb1]⟩
    simp only [allocList, halloc, hrec, hl]

/-- On a bitmap whose first `ndatablocks` bits are all set and that fits
inside the first bitmap block, `b_alloc` fails with
`OutsideOfTheBoundaries` and no state change. -/
lemma b_alloc_full (cfg : Cfg) (fs : FS)
    (hbs : 0 < fs.sb.block_size)
    (hds : 0 < fs.sb.datastart)
    (hnd : fs.sb.ndatablocks < 8 * fs.sb.block_size)
    (hmap : fs.bmap = fillPattern fs.sb.ndatablocks) :
    b_alloc cfg fs = .error .OutsideOfTheBoundaries := by
  set bs := fs.sb.block_size with hbs_def
  set nd := fs.sb.ndatablocks with hnd_def
  set ds := fs.sb.datastart with hds_def
  have hnd8 : nd % 8 < 8 := Nat.mod_lt _ (by norm_num)
  have hj0bs : nd / 8 < bs := by omega
  have hbval : fs.bmap (0 * bs + nd / 8) = 2 ^ (nd % 8) - 1 := by
    rw [hmap]; unfold fillPattern
    rw [Nat.zero_mul, Nat.zero_add, if_neg (by omega), if_pos rfl]
  have hbefore : ∀ g, g < nd / 8 → fs.bmap g = 255 := by
    intro g hg
    rw [hmap]; unfold fillPattern
    rw [if_pos hg]
  have hinner : firstLt (fun j => fs.bmap (0 * bs + j) != 255) bs = some (nd / 8) := by
    apply firstLt_eq_some hj0bs
    · rw [hbval]
      simp only [bne_iff_ne, ne_eq]
      exact fun h => absurd h (Nat.ne_of_lt (pow_sub_one_lt_255 _ hnd8))
    · intro i hi
      simp [hbefore _ hi]
  have houter :
      firstLt (fun i => (firstLt (fun j => fs.bmap (i * bs + j) != 255) bs).isSome)
        (nd / (bs * 8) + 1) = some 0 := by
    apply firstLt_eq_some (Nat.succ_pos _)
    · rw [hinner]; rfl
    · intro i hi
      exact absurd hi (Nat.not_lt_zero i)
  simp only [b_alloc]
  simp only [← hbs_def, ← hnd_def, ← hds_def]
  simp only [houter, hinner, hbval, lowestZeroBit_pow_sub_one _ hnd8]
  rw [if_pos (by omega)]

/-- Claim C4, amended.  From a filesystem freshly formatted by `mkfs` on
a superblock the code accepts, the i-th successful `b_alloc` (counting
from 0, with no intervening `b_free`) returns data-relative index `i`,
for every `i < ndatablocks` — that part holds as claimed.  The follow-up
part holds under the additional geometry restriction
`ndatablocks < 8 * block_size` (the whole bitmap inside its first
block): after `ndatablocks` successful allocations the next `b_alloc`
fails with `OutsideOfTheBoundaries`.  (Without that restriction the next
call can succeed with the out-of-range index `ndatablocks`; see the
counterexample.) -/
theorem C4_first_fit_alloc_sequence (cfg : Cfg) (sb : SuperBlock) (fs0 : FS)
    (hmk : mkfs_block cfg sb = .ok fs0) :
    (∀ n, n ≤ sb.ndatablocks →
      ∃ fs', allocList cfg fs0 n = .ok (List.range n, fs') ∧
        fs'.bmap = fillPattern n ∧ fs'.sb = sb) ∧
    (sb.ndatablocks < 8 * sb.block_size →
      ∃ fs', allocList cfg fs0 sb.ndatablocks = .ok (List.range sb.ndatablocks, fs') ∧
        b_alloc cfg fs' = .error .OutsideOfTheBoundaries) := by
  have hval : sb_valid cfg.dinodeSize sb = some true := by
    unfold mkfs_block at hmk
    rcases hv : sb_valid cfg.dinodeSize sb with _ | b
    · rw [hv] at hmk; exact absurd hmk (by simp)
    · rcases b with _ | _
      · rw [hv] at hmk; exact absurd hmk (by simp)
      · rfl
  have hfs0 : fs0 = freshFS cfg sb := by
    unfold mkfs_block at hmk
    rw [hval] at hmk
    injection hmk with h
    exact h.symm
  have hbs : 0 < sb.block_size := sb_valid_some_bs_pos hval
  have hlayout := (sb_valid_true_iff cfg.dinodeSize sb
    (sb_valid_some_ipb_pos hval)).mp hval
  have hpart1 : ∀ n, n ≤ sb.ndatablocks →
      ∃ fs', allocList cfg fs0 n = .ok (List.range n, fs') ∧
        fs'.bmap = fillPattern n ∧ fs'.sb = sb := by
    intro n hn
    obtain ⟨fs', hrun, hbm, hsb⟩ :=
      allocList_from_fill cfg n fs0 0
        (by rw [hfs0]; exact fillPattern_zero.symm)
        (by rw [hfs0]; exact hbs)
        (by rw [hfs0]; simpa using hn)
    have hr : (List.range n).map (fun t => 0 + t) = List.range n := by
      simp
    rw [hr] at hrun
    rw [hfs0] at hsb
    exact ⟨fs', hrun, by simpa using hbm, hsb⟩
  refine ⟨hpart1, fun hsmall => ?_⟩
  obtain ⟨fs', hrun, hbm, hsb⟩ := hpart1 sb.ndatablocks (Nat.le_refl _)
  refine ⟨fs', hrun, b_alloc_full cfg fs' ?_ ?_ ?_ ?_⟩
  · rw [hsb]; exact hbs
  · rw [hsb]; omega
  · rw [hsb]; exact hsmall
  · rw [hbm, hsb]

/-- Constants used by the concrete block-layer scenarios
(DINODE_SIZE 1 keeps the arithmetic small; the claims are parametric in
the constants). -/
def cfgA : Cfg := ⟨1, 22, 14, 12⟩

/-- Index returned by the `(n+1)`-st `b_alloc` after `mkfs` and `n`
successful allocations, `none` on any failure. -/
def allocNthIndex (cfg : Cfg) (sb : SuperBlock) (n : Nat) : Option Nat :=
  match mkfs_block cfg sb with
  | .error _ => none
  | .ok fs0 =>
    match allocList cfg fs0 n with
    | .error _ => none
    | .ok (_, fs') =>
      match b_alloc cfg fs' with
      | .error _ => none
      | .ok (k, _) => some k

/-- Claim C4, counterexample.  Superblock (block_size 2, nblocks 20,
ninodes 1, inodestart 1, ndatablocks 16, bmapstart 2, datastart 4) with
DINODE_SIZE 1 is accepted by the code (its bitmap spans two blocks:
16 = 8 * block_size bits).  After the 16 = ndatablocks successful
allocations the next `b_alloc` does NOT fail with
`OutsideOfTheBoundaries`: it succeeds and returns the out-of-range
data-relative index 16, because the pre-index error check uses
`i * block_size` where the returned index uses `8 * block_size * i`. -/
theorem C4_counterexample :
    allocNthIndex cfgA ⟨2, 20, 1, 1, 16, 2, 4⟩ 16 = some 16 := by
  decide

/-- Superblock of the concrete block-layer scenarios: block_size 4,
nblocks 28, ninodes 2, inodestart 1, ndatablocks 20, bmapstart 2,
datastart 7.  The code accepts it, and `datastart` is not a multiple of
`ndatablocks` — the geometry on which `b_alloc` zeroes the wrong
block. -/
def sbA : SuperBlock := ⟨4, 28, 2, 1, 20, 2, 7⟩

/-- Claim C4, witness: the amended theorem applied at `sbA`, whose 20
data blocks fit in one bitmap block. -/
theorem C4_witness :
    mkfs_block cfgA sbA = .ok (freshFS cfgA sbA) ∧
      ((∀ n, n ≤ sbA.ndatablocks →
        ∃ fs', allocList cfgA (freshFS cfgA sbA) n = .ok (List.range n, fs') ∧
          fs'.bmap = fillPattern n ∧ fs'.sb = sbA) ∧
      (sbA.ndatablocks < 8 * sbA.block_size →
        ∃ fs', allocList cfgA (freshFS cfgA sbA) sbA.ndatablocks =
            .ok (List.range sbA.ndatablocks, fs') ∧
          b_alloc cfgA fs' = .error .OutsideOfTheBoundaries)) :=
  ⟨rfl, C4_first_fit_alloc_sequence cfgA sbA _ rfl⟩

/-- Scenario for claim C3, run from a freshly formatted device on `sbA`:
allocate (returns data-relative 0, absolute block 7), write a block with
first byte 1 at absolute address 7, free index 0, allocate again, and
read the block at `datastart + returned index`.  The result records the
two returned indices and the first byte of that block. -/
def c3Run : Option (Nat × Nat × Nat) :=
  ((mkfs_block cfgA sbA).bind fun fs0 =>
   (b_alloc cfgA fs0).bind fun p1 =>
   (b_put p1.2 ⟨7, fun o => if o = 0 then 1 else 0, fun _ => dfltDirEntry cfgA⟩).bind fun fs2 =>
   (b_free fs2 0).bind fun fs3 =>
   (b_alloc cfgA fs3).bind fun p2 =>
   (b_get p2.2 (sbA.datastart + p2.1)).map fun blk =>
     (p1.1, p2.1, blk.bytes 0)).toOption

/-- Claim C3 is the invariant the code intends (its own test
`check_allocated` asserts freshly allocated blocks read back zeroed), but
`b_alloc` zeroes the data-relative index
`(datastart + i*block_size + 8*j + k) % ndatablocks` instead of the
allocated index `k + 8*j + 8*block_size*i`; the two agree only in special
geometries such as the repository's test superblock, where
`datastart = ndatablocks = 5`.  On `sbA` (datastart 7, ndatablocks 20):
after `b_alloc` returns 0, writing a nonzero byte into absolute block
7 = datastart + 0, freeing 0 and allocating again (returning 0 once
more), the immediately following `b_get(datastart + 0)` still holds the
nonzero byte — `b_alloc` zeroed data-relative index 7 instead of 0. -/
theorem C3_alloc_not_zeroed : c3Run = some (0, 0, 1) ∧ (1 : Nat) ≠ 0 :=
  ⟨by decide, by decide⟩

/-! ## Inode layer (b_inode_support.rs, duplicated in c_dirs_support.rs
and e_inode_RW_support.rs) -/

/-- `i_get` (b_inode_support.rs lines 305-325): bounds-check the inode
number (the c_dirs copy writes the equivalent `i + 1 > ninodes`), read
block `inodestart + i / n_ipb` through `b_get` (device bound `< nblocks`)
and deserialize the record at slot `i - n_ipb * (i / n_ipb)`. -/
def i_get (cfg : Cfg) (fs : FS) (i : Nat) : Except FsError (Nat × DInode) :=
  let sb := fs.sb
  if i + 1 > sb.ninodes then .error .OutsideOfTheBoundaries
  else
    let n_ipb := sb.block_size / cfg.dinodeSize
    let blk := i / n_ipb
    if sb.inodestart + blk < sb.nblocks then
      .ok (i, fs.itable (sb.inodestart + blk) (i - n_ipb * blk))
    else .error .DeviceError

/-- `i_put` (lines 327-346): same slot computation, overwrite the slot in
the enclosing block and write the block back. -/
def i_put (cfg : Cfg) (fs : FS) (ino : Nat × DInode) : Except FsError FS :=
  let sb := fs.sb
  if ino.1 + 1 > sb.ninodes then .error .OutsideOfTheBoundaries
  else
    let n_ipb := sb.block_size / cfg.dinodeSize
    let blk := ino.1 / n_ipb
    if sb.inodestart + blk < sb.nblocks then
      .ok { fs with
        itable := upd fs.itable (sb.inodestart + blk)
          (upd (fs.itable (sb.inodestart + blk)) (ino.1 - n_ipb * blk) ino.2) }
    else .error .DeviceError

/-- The `for i in 0..n_valid_blocks` loop of `i_free` (lines 374-378):
for each listed pointer in turn, if it is nonzero, free the bitmap bit at
data-relative index `direct_blocks[i] % datastart`.  `Panic` models the
Rust array-index panic when the slot count exceeds `direct_blocks.len()`.
Arguments after the state: current index, remaining iterations. -/
def freeLoop (dbs : List Nat) (ds : Nat) : FS → Nat → Nat → Except FsError FS
  | fs, _, 0 => .ok fs
  | fs, t, r + 1 =>
    match dbs.get? t with
    | none => .error .Panic
    | some b =>
      if b ≠ 0 then
        match b_free fs (b % ds) with
        | .error e => .error e
        | .ok fs1 => freeLoop dbs ds fs1 (t + 1) r
      else freeLoop dbs ds fs (t + 1) r

/-- `i_free` (lines 348-385): bounds-check, fetch the inode (the code
unwraps, so a fetch error is a panic; the `inum != i` branch is dead
because `i_get` returns `Inode::new(i, ..)`), reject an already-free
inode; when `nlink == 0`, free `ceil(size / block_size)` slots of
`direct_blocks` through `b_free(ptr % datastart)`, clear the pointer
array and write the inode back (the ceiling is computed through f64,
exact in the embedded integer ranges). -/
def i_free (cfg : Cfg) (fs : FS) (i : Nat) : Except FsError FS :=
  let sb := fs.sb
  if i + 1 > sb.ninodes then .error .OutsideOfTheBoundaries
  else
    match i_get cfg fs i with
    | .error _ => .error .Panic
    | .ok ino =>
      if ino.2.ft = .TFree then .error .InodeAlreadyDeallocated
      else if ino.2.nlink = 0 then
        match freeLoop ino.2.direct_blocks sb.datastart fs 0
            (ceilDiv ino.2.size sb.block_size) with
        | .error e => .error e
        | .ok fs1 =>
          i_put cfg fs1
            (i, { ino.2 with
                  ft := .TFree,
                  direct_blocks := List.replicate cfg.ndirect 0 })
      else .ok fs

/-- Content the directory-layer `mkfs` (c_dirs_support.rs lines 95-113)
serializes into its i-th inode block: slot `j` receives a default inode
when `i*n_ipb + (j+1) <= ninodes` — except slot 1 of block 0, which
receives the root inode (`TDir`, `nlink` 1).  Slots left unserialized
hold zero bytes, which also decode to the default inode. -/
def mkfsInodeBlock (cfg : Cfg) (sb : SuperBlock) (i : Nat) : Nat → DInode :=
  (List.range (sb.block_size / cfg.dinodeSize)).foldl
    (fun f j =>
      if i * (sb.block_size / cfg.dinodeSize) + (j + 1) ≤ sb.ninodes then
        upd f j (if i = 0 ∧ j = 1 then rootDInode cfg else dfltDInode cfg)
      else f)
    (fun _ => dfltDInode cfg)

/-- Inode table after the directory-layer `mkfs`: the block built in
iteration `i` of the outer loop is written to absolute block `i + 1`
(`Block::new_zero(i + 1, ..)` — not `inodestart + i`). -/
def mkfsItable (cfg : Cfg) (sb : SuperBlock) : Nat → Nat → DInode :=
  (List.range (sb.ninodes / (sb.block_size / cfg.dinodeSize) + 1)).foldl
    (fun tb i => upd tb (i + 1) (mkfsInodeBlock cfg sb i))
    (fun _ _ => dfltDInode cfg)

/-- Directory-layer `mkfs` (c_dirs_support.rs lines 73-118): reject
invalid superblocks, create a zeroed device, write the superblock and the
inode blocks. -/
def mkfs_dirs (cfg : Cfg) (sb : SuperBlock) : Except FsError FS :=
  match sb_valid cfg.dinodeSize sb with
  | none => .error .Panic
  | some false => .error .SuperBlockInvalid
  | some true => .ok { freshFS cfg sb with itable := mkfsItable cfg sb }

lemma upd_apply {α : Type} (f : Nat → α) (i : Nat) (v : α) (j : Nat) :
    upd f i v j = if j = i then v else f j := rfl

lemma foldl_condUpd_eval {α : Type} (v : Nat → α) (C : Nat → Prop) [DecidablePred C] :
    ∀ (n : Nat) (f0 : Nat → α) (x : Nat),
      ((List.range n).foldl (fun f j => if C j then upd f j (v j) else f) f0) x =
        if x < n ∧ C x then v x else f0 x := by
  intro n
  induction n with
  | zero =>
    intro f0 x
    rw [if_neg (by omega)]
    rfl
  | succ n ih =>
    intro f0 x
    rw [List.range_succ, List.foldl_append, List.foldl_cons, List.foldl_nil]
    by_cases hC : C n
    · rw [if_pos hC, upd_apply]
      by_cases hx : x = n
      · subst hx
        rw [if_pos rfl, if_pos ⟨Nat.lt_succ_self _, hC⟩]
      · rw [if_neg hx, ih]
        by_cases hxn : x < n ∧ C x
        · rw [if_pos hxn, if_pos ⟨by omega, hxn.2⟩]
        · rw [if_neg hxn, if_neg (fun hcon => hxn ⟨by omega, hcon.2⟩)]
    · rw [if_neg hC, ih]
      by_cases hxn : x < n ∧ C x
      · rw [if_pos hxn, if_pos ⟨by omega, hxn.2⟩]
      · rw [if_neg hxn, if_neg ?_]
        intro hcon
        rcases Nat.lt_or_ge x n with h | h
        · exact hxn ⟨h, hcon.2⟩
        · have : x = n := by omega
          subst this
          exact hC hcon.2

lemma foldl_updSucc_eval {α : Type} (w : Nat → α) :
    ∀ (n : Nat) (f0 : Nat → α) (x : Nat),
      ((List.range n).foldl (fun tb i => upd tb (i + 1) (w i)) f0) x =
        if 1 ≤ x ∧ x ≤ n then w (x - 1) else f0 x := by
  intro n
  induction n with
  | zero =>
    intro f0 x
    rw [if_neg (by omega)]
    rfl
  | succ n ih =>
    intro f0 x
    rw [List.range_succ, List.foldl_append, List.foldl_cons, List.foldl_nil,
      upd_apply]
    by_cases hx : x = n + 1
    · subst hx
      rw [if_pos rfl, if_pos (by omega)]
      norm_num
    · rw [if_neg hx, ih]
      by_cases hxn : 1 ≤ x ∧ x ≤ n
      · rw [if_pos hxn, if_pos (by omega)]
      · rw [if_neg hxn, if_neg (by omega)]

/-- Claim C6, amended.  After the directory-layer `mkfs` on a superblock
the code accepts, PROVIDED `inodestart = 1` and at least two inodes fit
in a block, every inode `k < ninodes` with `k ≠ 1` reads back through
`i_get` as the default free inode, and inode 1 reads back as `TDir` with
`nlink = 1`.  (The extra hypotheses are forced: the code writes the inode
table at absolute blocks `1, 2, ..` regardless of `inodestart`, and can
only place the root at block 0 slot 1, which is inode 1 only when
`block_size / DINODE_SIZE ≥ 2`; see the counterexample.) -/
theorem C6_mkfs_inode_table (cfg : Cfg) (sb : SuperBlock) (fs0 : FS)
    (hmk : mkfs_dirs cfg sb = .ok fs0)
    (hstart : sb.inodestart = 1)
    (hipb : 2 ≤ sb.block_size / cfg.dinodeSize) :
    ∀ k, k < sb.ninodes →
      i_get cfg fs0 k = .ok (k, if k = 1 then rootDInode cfg else dfltDInode cfg) := by
  have hval : sb_valid cfg.dinodeSize sb = some true := by
    unfold mkfs_dirs at hmk
    rcases hv : sb_valid cfg.dinodeSize sb with _ | b
    · rw [hv] at hmk; simp at hmk
    · rcases b with _ | _
      · rw [hv] at hmk; simp at hmk
      · rfl
  have hfs0 : fs0 = { freshFS cfg sb with itable := mkfsItable cfg sb } := by
    unfold mkfs_dirs at hmk
    rw [hval] at hmk
    injection hmk with h
    exact h.symm
  set ipb := sb.block_size / cfg.dinodeSize with hipb_def
  have hipb0 : 0 < ipb := by omega
  have hlayout := (sb_valid_true_iff cfg.dinodeSize sb
    (sb_valid_some_ipb_pos hval)).mp hval
  simp only [← hipb_def] at hlayout
  intro k hk
  have hnin : 1 ≤ sb.ninodes := by omega
  -- the device bound of the b_get inside i_get
  have hblk_le : k / ipb ≤ (sb.ninodes - 1) / ipb := Nat.div_le_div_right (by omega)
  have hceil : (sb.ninodes - 1) / ipb + 1 ≤ ceilDiv sb.ninodes ipb := by
    unfold ceilDiv
    rw [show sb.ninodes + ipb - 1 = (sb.ninodes - 1) + ipb from by omega,
      Nat.add_div_right _ hipb0]
  have hbound : sb.inodestart + k / ipb < sb.nblocks := by
    rcases hlayout with ⟨h1, h2, h3, h4, h5, h6⟩
    omega
  have hdm := Nat.div_add_mod k ipb
  have hslot : k - ipb * (k / ipb) = k % ipb := by omega
  have hdivle : k / ipb ≤ sb.ninodes / ipb := Nat.div_le_div_right (by omega)
  rw [hfs0]
  simp only [i_get, freshFS]
  simp only [← hipb_def]
  rw [if_neg (show ¬ k + 1 > sb.ninodes by omega), if_pos hbound, hslot]
  simp only [mkfsItable]
  simp only [← hipb_def]
  rw [foldl_updSucc_eval (fun i => mkfsInodeBlock cfg sb i),
    if_pos (show 1 ≤ sb.inodestart + k / ipb ∧
        sb.inodestart + k / ipb ≤ sb.ninodes / ipb + 1 from
      ⟨by rw [hstart]; exact Nat.le_add_right 1 _, by rw [hstart]; omega⟩),
    show sb.inodestart + k / ipb - 1 = k / ipb from by
      rw [hstart, Nat.add_comm]; exact Nat.add_sub_cancel _ _]
  simp only [mkfsInodeBlock]
  simp only [← hipb_def]
  rw [foldl_condUpd_eval
      (fun j => if k / ipb = 0 ∧ j = 1 then rootDInode cfg else dfltDInode cfg)
      (fun j => k / ipb * ipb + (j + 1) ≤ sb.ninodes),
    if_pos (show k % ipb < ipb ∧ k / ipb * ipb + (k % ipb + 1) ≤ sb.ninodes from
      ⟨Nat.mod_lt _ hipb0, by rw [Nat.mul_comm]; omega⟩)]
  have hiff : (k / ipb = 0 ∧ k % ipb = 1) ↔ k = 1 := by
    constructor
    · intro h
      rw [h.1, Nat.mul_zero, Nat.zero_add, h.2] at hdm
      omega
    · intro h
      subst h
      exact ⟨Nat.div_eq_of_lt (by omega), Nat.mod_eq_of_lt (by omega)⟩
  by_cases hk1 : k = 1
  · rw [if_pos (hiff.mpr hk1), if_pos hk1]
  · rw [if_neg (fun hcon => hk1 (hiff.mp hcon)), if_neg hk1]

/-- Run of `mkfs` then `i_get 1` on a code-accepted superblock with
`inodestart = 2` (block_size 2, nblocks 10, ninodes 2, inodestart 2,
ndatablocks 2, bmapstart 3, datastart 4), DINODE_SIZE 1. -/
def c6Run : Option (Nat × DInode) :=
  ((mkfs_dirs cfgA ⟨2, 10, 2, 2, 2, 3, 4⟩).bind fun fs0 => i_get cfgA fs0 1).toOption

/-- Claim C6, counterexample.  On a valid superblock with
`inodestart = 2` the root inode is not created: `mkfs` writes its inode
blocks at absolute blocks 1 and 2 while `i_get` reads inode 1 from block
`inodestart + 0 = 2`, whose slot 1 is a default free inode, not `TDir`
with `nlink = 1`. -/
theorem C6_counterexample :
    c6Run = some (1, dfltDInode cfgA) ∧ (dfltDInode cfgA).ft ≠ FType.TDir :=
  ⟨by decide, by decide⟩

/-- Superblock for the C6 witness: block_size 2, nblocks 10, ninodes 2,
inodestart 1, ndatablocks 2, bmapstart 2, datastart 3 (DINODE_SIZE 1, so
two inodes per block). -/
def sbB : SuperBlock := ⟨2, 10, 2, 1, 2, 2, 3⟩

/-- Claim C6, witness: the amended theorem at `sbB`, evaluated at the
root inode. -/
theorem C6_witness :
    mkfs_dirs cfgA sbB = .ok { freshFS cfgA sbB with itable := mkfsItable cfgA sbB } ∧
      sbB.inodestart = 1 ∧ 2 ≤ sbB.block_size / cfgA.dinodeSize ∧ (1 : Nat) < sbB.ninodes ∧
      i_get cfgA { freshFS cfgA sbB with itable := mkfsItable cfgA sbB } 1 =
        .ok (1, if 1 = 1 then rootDInode cfgA else dfltDInode cfgA) :=
  ⟨rfl, rfl, by decide, by decide,
    C6_mkfs_inode_table cfgA sbB _ rfl rfl (by decide) 1 (by decide)⟩

/-- State for the C5 scenario, on `sbA` (datastart 7): inode 1 is a file
with `nlink = 0`, `size = 4` (one block) and `direct_blocks[0] = 14`, the
absolute address of data-relative block 7; bitmap bits 0 and 7 are
set. -/
def c5FS : FS :=
  { sb := sbA,
    itable := upd (fun _ _ => dfltDInode cfgA) 1
      (upd (fun _ => dfltDInode cfgA) 1
        ⟨.TFile, 0, 4, [14, 0, 0, 0, 0, 0, 0, 0, 0, 0, 0, 0]⟩),
    bmap := fun g => if g = 0 then 129 else 0,
    data := fun _ _ => 0,
    dents := fun _ _ => dfltDirEntry cfgA }

/-- Claim C5 describes the intended contract (the spec itself instructs
implementers to free `direct_blocks[i] - datastart`), but `i_free` calls
`b_free(direct_blocks[i] % datastart)`.  On `c5FS`, freeing inode 1
(whose only pointer is the absolute block 14 = datastart + 7) clears
bitmap bit 14 % 7 = 0 — the bit of a different, still-allocated block —
leaving bit 7 set: the byte ends as 128, where the claimed behavior
yields 1.  The rest of the claim does happen: the inode is written back
free with a cleared pointer array. -/
theorem C5_free_wrong_bitmap_bit :
    ((i_free cfgA c5FS 1).toOption.map fun fs' => (fs'.bmap 0, fs'.itable 1 1)) =
      some (128, ⟨.TFree, 0, 4, List.replicate 12 0⟩) ∧ (128 : Nat) ≠ 1 :=
  ⟨by decide, by decide⟩

/-! ## Inode read/write layer (e_inode_RW_support.rs) -/

/-- `Block::read_data` of `len` raw bytes at `offset`; fails when the
slice leaves the block.  Modelled from the spec: raw byte reads with
bounds checks (sections 3 and 6). -/
def readBytes (b : Block) (bs offset len : Nat) : Except FsError (List Nat) :=
  if offset + len ≤ bs then
    .ok ((List.range len).map fun t => b.bytes (offset + t))
  else .error .DeviceError

/-- `Block::write_data`: overwrite the bytes `[offset, offset+len)`;
fails when the slice leaves the block.  Modelled from the spec: raw byte
writes with bounds checks. -/
def writeBytes (b : Block) (bs offset : Nat) (src : List Nat) : Except FsError Block :=
  if offset + src.length ≤ bs then
    .ok { b with bytes := fun o =>
      if offset ≤ o ∧ o < offset + src.length then src.getD (o - offset) 0
      else b.bytes o }
  else .error .DeviceError

/-- `Buffer::write_data` into the caller-owned byte buffer at an offset.
Modelled from the spec: section 4.4. -/
def bufWrite (buf src : List Nat) (o : Nat) : Except FsError (List Nat) :=
  if o + src.length ≤ buf.length then
    .ok (buf.take o ++ src ++ buf.drop (o + src.length))
  else .error .DeviceError

/-- A Rust slice `&v[lo..hi]`: panics unless `lo ≤ hi ≤ v.len()`. -/
def slice (v : List Nat) (lo hi : Nat) : Except FsError (List Nat) :=
  if lo ≤ hi ∧ hi ≤ v.length then .ok ((v.drop lo).take (hi - lo))
  else .error .Panic

/-- Outcome of the read loop: `early` is the `return Ok(n)` taken inside
the loop when the remaining count hits zero, `through` is normal loop
exit with the accumulated bytes and the remaining count. -/
inductive ReadOut
  | early (acc : List Nat)
  | through (acc : List Nat) (cn : Nat)

/-- The block loop of `i_read` (lines 476-505): read each block through
`b_get(direct_blocks[i] % datastart + datastart)`, copy
`block_size - intra_offset` bytes (or the remaining count in the final
block) into the accumulator.  Arguments after the fixed data: remaining
iterations (`n_valid_blocks - i`), current index `i`, accumulator,
remaining count. -/
def readLoop (fs : FS) (dbs : List Nat) (sbk so : Nat) :
    Nat → Nat → List Nat → Nat → Except FsError ReadOut
  | 0, _, acc, cn => .ok (.through acc cn)
  | r + 1, i, acc, cn =>
    match dbs.get? i with
    | none => .error .Panic
    | some db =>
      match b_get fs (db % fs.sb.datastart + fs.sb.datastart) with
      | .error e => .error e
      | .ok blk =>
        let offset := if i = sbk then so else 0
        if fs.sb.block_size - offset < cn then
          match readBytes blk fs.sb.block_size offset (fs.sb.block_size - offset) with
          | .error e => .error e
          | .ok chunk =>
            let cn1 := cn - (fs.sb.block_size - offset)
            if cn1 = 0 then .ok (.early (acc ++ chunk))
            else readLoop fs dbs sbk so r (i + 1) (acc ++ chunk) cn1
        else
          match readBytes blk fs.sb.block_size offset cn with
          | .error e => .error e
          | .ok chunk => .ok (.early (acc ++ chunk))

/-- `i_read` (lines 453-509): reject `off > size`, return 0 at
`off == size`, otherwise run the block loop from block `off / block_size`
and copy the accumulated bytes into the caller's buffer at offset 0;
the early return yields `n`, the fall-through `n - current_n`. -/
def i_read (fs : FS) (ino : Nat × DInode) (buf : List Nat) (off n : Nat) :
    Except FsError (Nat × List Nat) :=
  let sb := fs.sb
  if ino.2.size < off then .error .OffsetOutsideOfInode
  else if off = ino.2.size then .ok (0, buf)
  else
    let sbk := off / sb.block_size
    let nvb := ceilDiv ino.2.size sb.block_size
    match readLoop fs ino.2.direct_blocks sbk (off % sb.block_size)
        (nvb - sbk) sbk [] n with
    | .error e => .error e
    | .ok (.early acc) =>
      match bufWrite buf acc 0 with
      | .error e => .error e
      | .ok buf1 => .ok (n, buf1)
    | .ok (.through acc cn) =>
      match bufWrite buf acc 0 with
      | .error e => .error e
      | .ok buf1 => .ok (n - cn, buf1)

/-- Outcome of the write loop. -/
inductive WriteOut
  | early (fs : FS)
  | through (fs : FS) (sp cn : Nat)

/-- The block loop of `i_write` (lines 529-557), with the code's quirks
kept: the copied slice is `&buf[starting_point .. block_size - offset]`
or `&buf[starting_point .. n]` (absolute upper bounds, not
`starting_point + length`), and the else branch runs `current_n -= 0`,
leaving the count unchanged.  Arguments after the fixed data: remaining
iterations, current index `i`, state, `starting_point`, remaining
count. -/
def writeLoop (dbs buf : List Nat) (n sbk so : Nat) :
    Nat → Nat → FS → Nat → Nat → Except FsError WriteOut
  | 0, _, fs, sp, cn => .ok (.through fs sp cn)
  | r + 1, i, fs, sp, cn =>
    match dbs.get? i with
    | none => .error .Panic
    | some db =>
      match b_get fs (db % fs.sb.datastart + fs.sb.datastart) with
      | .error e => .error e
      | .ok blk =>
        let offset := if i = sbk then so else 0
        if fs.sb.block_size - offset < cn then
          match slice buf sp (fs.sb.block_size - offset) with
          | .error e => .error e
          | .ok chunk =>
            match writeBytes blk fs.sb.block_size offset chunk with
            | .error e => .error e
            | .ok blk1 =>
              match b_put fs blk1 with
              | .error e => .error e
              | .ok fs1 =>
                let sp1 := sp + (fs.sb.block_size - offset)
                let cn1 := cn - (fs.sb.block_size - offset)
                if cn1 = 0 then .ok (.early fs1)
                else writeLoop dbs buf n sbk so r (i + 1) fs1 sp1 cn1
        else
          match slice buf sp n with
          | .error e => .error e
          | .ok chunk =>
            match writeBytes blk fs.sb.block_size offset chunk with
            | .error e => .error e
            | .ok blk1 =>
              match b_put fs blk1 with
              | .error e => .error e
              | .ok fs1 =>
                let cn1 := cn - 0
                if cn1 = 0 then .ok (.early fs1)
                else writeLoop dbs buf n sbk so r (i + 1) fs1 n cn1

/-- `i_write` (lines 511-571): reject `off > size`; run the block loop
over the currently listed blocks; then — the loop's count can only reach
zero for `n = 0`, so in essentially every call — allocate ONE extra
block, write the tail `&buf[starting_point .. n]` at its offset 0,
append its absolute address at `direct_blocks[n_valid_blocks]` (a panic
when that slot does not exist), grow `size` by the tail length only, and
persist the inode with `i_put`. -/
def i_write (cfg : Cfg) (fs : FS) (ino : Nat × DInode) (buf : List Nat) (off n : Nat) :
    Except FsError (FS × (Nat × DInode)) :=
  let sb := fs.sb
  if ino.2.size < off then .error .OffsetOutsideOfInode
  else
    let sbk := off / sb.block_size
    let nvb := ceilDiv ino.2.size sb.block_size
    match writeLoop ino.2.direct_blocks buf n sbk (off % sb.block_size)
        (nvb - sbk) sbk fs 0 n with
    | .error e => .error e
    | .ok (.early fs1) => .ok (fs1, ino)
    | .ok (.through fs1 sp _) =>
      match b_alloc cfg fs1 with
      | .error e => .error e
      | .ok (idx, fs2) =>
        match b_get fs2 (idx + sb.datastart) with
        | .error e => .error e
        | .ok blk =>
          match slice buf sp n with
          | .error e => .error e
          | .ok chunk =>
            match writeBytes blk sb.block_size 0 chunk with
            | .error e => .error e
            | .ok blk1 =>
              match b_put fs2 blk1 with
              | .error e => .error e
              | .ok fs3 =>
                if nvb < ino.2.direct_blocks.length then
                  match i_put cfg fs3
                      (ino.1, { ino.2 with
                                size := ino.2.size + chunk.length,
                                direct_blocks :=
                                  ino.2.direct_blocks.set nvb (idx + sb.datastart) }) with
                  | .error e => .error e
                  | .ok fs4 =>
                    .ok (fs4,
                      (ino.1, { ino.2 with
                                size := ino.2.size + chunk.length,
                                direct_blocks :=
                                  ino.2.direct_blocks.set nvb (idx + sb.datastart) }))
                else .error .Panic

/-- Claim C9, confirmed.  For every state, inode and buffer: `i_read` and
`i_write` with `off > size` fail with `OffsetOutsideOfInode`, and
`i_read` with `off == size` returns 0 bytes read (leaving the buffer
untouched). -/
theorem C9_offset_bounds (cfg : Cfg) (fs : FS) (ino : Nat × DInode)
    (buf : List Nat) (off n : Nat) :
    (ino.2.size < off →
      i_read fs ino buf off n = .error .OffsetOutsideOfInode ∧
      i_write cfg fs ino buf off n = .error .OffsetOutsideOfInode) ∧
    (off = ino.2.size → i_read fs ino buf off n = .ok (0, buf)) := by
  constructor
  · intro h
    constructor
    · simp only [i_read]
      rw [if_pos h]
    · simp only [i_write]
      rw [if_pos h]
  · intro h
    simp only [i_read]
    rw [if_neg (by omega), if_pos h]

/-- Claim C9, witness: both failure modes and the zero-read at concrete
inputs. -/
theorem C9_witness :
    i_read (freshFS cfgA sbA) (1, dfltDInode cfgA) [] 1 0 =
        .error .OffsetOutsideOfInode ∧
      i_write cfgA (freshFS cfgA sbA) (1, dfltDInode cfgA) [] 1 0 =
        .error .OffsetOutsideOfInode ∧
      i_read (freshFS cfgA sbA) (1, dfltDInode cfgA) [] 0 0 = .ok (0, []) :=
  ⟨((C9_offset_bounds cfgA (freshFS cfgA sbA) (1, dfltDInode cfgA) [] 1 0).1
      (by decide)).1,
   ((C9_offset_bounds cfgA (freshFS cfgA sbA) (1, dfltDInode cfgA) [] 1 0).1
      (by decide)).2,
   (C9_offset_bounds cfgA (freshFS cfgA sbA) (1, dfltDInode cfgA) [] 0 0).2
      (by decide)⟩

lemma b_put_preserves {fs : FS} {b : Block} {fs' : FS} (h : b_put fs b = .ok fs') :
    fs'.sb = fs.sb ∧ fs'.itable = fs.itable ∧ fs'.bmap = fs.bmap := by
  simp only [b_put] at h
  split_ifs at h
  injection h with h'
  subst h'
  exact ⟨rfl, rfl, rfl⟩

lemma slice_ok {v : List Nat} {lo hi : Nat} {c : List Nat}
    (h : slice v lo hi = .ok c) :
    lo ≤ hi ∧ hi ≤ v.length ∧ c.length = hi - lo ∧ c = (v.drop lo).take (hi - lo) := by
  simp only [slice] at h
  split_ifs at h with hc
  injection h with h'
  subst h'
  refine ⟨hc.1, hc.2, ?_, rfl⟩
  rw [List.length_take, List.length_drop]
  omega

/-- Invariant characterization of the write loop for `n > 0`: starting
either still copying (`sp` equals the block capacity consumed so far and
`cn = n - sp`) or already done copying (`sp = n`, positive leftover count
at most one block), a successful run never takes the early return, and at
normal exit `starting_point` is `min n` (capacity of the blocks scanned
past `off`). -/
lemma writeLoop_spec (dbs buf : List Nat) (n sbk so : Nat) (sb0 : SuperBlock)
    (hso : so < sb0.block_size) (hn : 0 < n) :
    ∀ (r i : Nat) (fs : FS) (sp cn : Nat) (out : WriteOut),
      writeLoop dbs buf n sbk so r i fs sp cn = .ok out →
      fs.sb = sb0 → sbk ≤ i →
      ((sp = i * sb0.block_size - (sbk * sb0.block_size + so) ∧
        cn = n - sp ∧ sp < n) ∨
       (sp = n ∧ 0 < cn ∧ cn ≤ sb0.block_size ∧
        n ≤ i * sb0.block_size - (sbk * sb0.block_size + so))) →
      ∃ fs' cn',
        out = .through fs'
          (min n ((i + r) * sb0.block_size - (sbk * sb0.block_size + so))) cn' ∧
        fs'.sb = sb0 ∧ fs'.itable = fs.itable := by
  intro r
  induction r with
  | zero =>
    intro i fs sp cn out hrun hfs hki hinv
    simp only [writeLoop] at hrun
    injection hrun with h'
    subst h'
    have hQP : sbk * sb0.block_size ≤ i * sb0.block_size :=
      Nat.mul_le_mul_right _ hki
    refine ⟨fs, cn, ?_, hfs, rfl⟩
    have hmin : min n ((i + 0) * sb0.block_size - (sbk * sb0.block_size + so)) = sp := by
      rw [Nat.add_zero]
      rcases hinv with ⟨h1, _, h3⟩ | ⟨h1, _, _, h4⟩ <;> omega
    rw [hmin]
  | succ r ih =>
    intro i fs sp cn out hrun hfs hki hinv
    have hQP : sbk * sb0.block_size <= i * sb0.block_size :=
      Nat.mul_le_mul_right _ hki
    have hsucc : (i + 1) * sb0.block_size = i * sb0.block_size + sb0.block_size :=
      Nat.succ_mul _ _
    have hidx : i + 1 + r = i + (r + 1) := by omega
    simp only [writeLoop, hfs] at hrun
    rcases hdb : dbs.get? i with _ | db
    · simp only [hdb] at hrun
      exact absurd hrun (by simp)
    simp only [hdb] at hrun
    rcases hbg : b_get fs (db % sb0.datastart + sb0.datastart) with e | blk
    · simp only [hbg] at hrun
      exact absurd hrun (by simp)
    simp only [hbg] at hrun
    by_cases hi : i = sbk
    · -- first scanned block: intra-block offset is `so`
      rw [if_pos hi] at hrun
      have hQeq : sbk * sb0.block_size = i * sb0.block_size := by rw [hi]
      by_cases hbr : sb0.block_size - so < cn
      · rw [if_pos hbr] at hrun
        rcases hinv with ⟨h1, h2, h3⟩ | ⟨h1, h2, h4, h5⟩
        swap
        · exact absurd h5 (by omega)
        rcases hsl : slice buf sp (sb0.block_size - so) with e | chunk
        · simp only [hsl] at hrun
          exact absurd hrun (by simp)
        simp only [hsl] at hrun
        rcases hwb : writeBytes blk sb0.block_size so chunk with e | blk1
        · simp only [hwb] at hrun
          exact absurd hrun (by simp)
        simp only [hwb] at hrun
        rcases hbp : b_put fs blk1 with e | fs1
        · simp only [hbp] at hrun
          exact absurd hrun (by simp)
        simp only [hbp] at hrun
        rw [if_neg (by omega)] at hrun
        obtain ⟨hp1, hp2, _⟩ := b_put_preserves hbp
        obtain ⟨fs', cn', hout, hsb', hit'⟩ :=
          ih (i + 1) fs1 (sp + (sb0.block_size - so)) (cn - (sb0.block_size - so))
            out hrun (by rw [hp1, hfs]) (by omega)
            (Or.inl ⟨by rw [hsucc]; omega, by omega, by omega⟩)
        exact ⟨fs', cn', by rw [hout, hidx], hsb', by rw [hit', hp2]⟩
      · rw [if_neg hbr] at hrun
        rcases hsl : slice buf sp n with e | chunk
        · simp only [hsl] at hrun
          exact absurd hrun (by simp)
        simp only [hsl] at hrun
        rcases hwb : writeBytes blk sb0.block_size so chunk with e | blk1
        · simp only [hwb] at hrun
          exact absurd hrun (by simp)
        simp only [hwb] at hrun
        rcases hbp : b_put fs blk1 with e | fs1
        · simp only [hbp] at hrun
          exact absurd hrun (by simp)
        simp only [hbp] at hrun
        obtain ⟨hp1, hp2, _⟩ := b_put_preserves hbp
        rcases hinv with ⟨h1, h2, h3⟩ | ⟨h1, h2, h4, h5⟩
        · rw [if_neg (by omega)] at hrun
          obtain ⟨fs', cn', hout, hsb', hit'⟩ :=
            ih (i + 1) fs1 n (cn - 0) out hrun (by rw [hp1, hfs]) (by omega)
              (Or.inr ⟨rfl, by omega, by omega, by rw [hsucc]; omega⟩)
          exact ⟨fs', cn', by rw [hout, hidx], hsb', by rw [hit', hp2]⟩
        · rw [if_neg (by omega)] at hrun
          obtain ⟨fs', cn', hout, hsb', hit'⟩ :=
            ih (i + 1) fs1 n (cn - 0) out hrun (by rw [hp1, hfs]) (by omega)
              (Or.inr ⟨rfl, by omega, by omega, by rw [hsucc]; omega⟩)
          exact ⟨fs', cn', by rw [hout, hidx], hsb', by rw [hit', hp2]⟩
    · -- later blocks: intra-block offset 0
      rw [if_neg hi] at hrun
      have hki1 : sbk + 1 <= i := by omega
      have hQP1 : (sbk + 1) * sb0.block_size <= i * sb0.block_size :=
        Nat.mul_le_mul_right _ hki1
      rw [Nat.succ_mul] at hQP1
      by_cases hbr : sb0.block_size - 0 < cn
      · rw [if_pos hbr] at hrun
        rcases hinv with ⟨h1, h2, h3⟩ | ⟨h1, h2, h4, h5⟩
        swap
        · exact absurd h4 (by omega)
        rcases hsl : slice buf sp (sb0.block_size - 0) with e | chunk
        · simp only [hsl] at hrun
          exact absurd hrun (by simp)
        simp only [hsl] at hrun
        rcases hwb : writeBytes blk sb0.block_size 0 chunk with e | blk1
        · simp only [hwb] at hrun
          exact absurd hrun (by simp)
        simp only [hwb] at hrun
        rcases hbp : b_put fs blk1 with e | fs1
        · simp only [hbp] at hrun
          exact absurd hrun (by simp)
        simp only [hbp] at hrun
        rw [if_neg (by omega)] at hrun
        obtain ⟨hp1, hp2, _⟩ := b_put_preserves hbp
        obtain ⟨fs', cn', hout, hsb', hit'⟩ :=
          ih (i + 1) fs1 (sp + (sb0.block_size - 0)) (cn - (sb0.block_size - 0))
            out hrun (by rw [hp1, hfs]) (by omega)
            (Or.inl ⟨by rw [hsucc]; omega, by omega, by omega⟩)
        exact ⟨fs', cn', by rw [hout, hidx], hsb', by rw [hit', hp2]⟩
      · rw [if_neg hbr] at hrun
        rcases hsl : slice buf sp n with e | chunk
        · simp only [hsl] at hrun
          exact absurd hrun (by simp)
        simp only [hsl] at hrun
        rcases hwb : writeBytes blk sb0.block_size 0 chunk with e | blk1
        · simp only [hwb] at hrun
          exact absurd hrun (by simp)
        simp only [hwb] at hrun
        rcases hbp : b_put fs blk1 with e | fs1
        · simp only [hbp] at hrun
          exact absurd hrun (by simp)
        simp only [hbp] at hrun
        obtain ⟨hp1, hp2, _⟩ := b_put_preserves hbp
        rcases hinv with ⟨h1, h2, h3⟩ | ⟨h1, h2, h4, h5⟩
        · rw [if_neg (by omega)] at hrun
          obtain ⟨fs', cn', hout, hsb', hit'⟩ :=
            ih (i + 1) fs1 n (cn - 0) out hrun (by rw [hp1, hfs]) (by omega)
              (Or.inr ⟨rfl, by omega, by omega, by rw [hsucc]; omega⟩)
          exact ⟨fs', cn', by rw [hout, hidx], hsb', by rw [hit', hp2]⟩
        · rw [if_neg (by omega)] at hrun
          obtain ⟨fs', cn', hout, hsb', hit'⟩ :=
            ih (i + 1) fs1 n (cn - 0) out hrun (by rw [hp1, hfs]) (by omega)
              (Or.inr ⟨rfl, by omega, by omega, by rw [hsucc]; omega⟩)
          exact ⟨fs', cn', by rw [hout, hidx], hsb', by rw [hit', hp2]⟩

lemma ceilDiv_mul_ge (a b : Nat) (hb : 0 < b) : a ≤ ceilDiv a b * b := by
  unfold ceilDiv
  have hdm := Nat.div_add_mod (a + b - 1) b
  have hlt := Nat.mod_lt (a + b - 1) hb
  rw [Nat.mul_comm]
  omega

lemma i_get_after_i_put (cfg : Cfg) (fs fs' : FS) (ino : Nat × DInode)
    (h : i_put cfg fs ino = .ok fs') :
    i_get cfg fs' ino.1 = .ok ino := by
  obtain ⟨inum, dn⟩ := ino
  simp only [i_put] at h
  split_ifs at h with h1 h2
  injection h with h
  subst h
  simp only [i_get]
  rw [if_neg h1, if_pos h2, upd_apply, if_pos rfl, upd_apply, if_pos rfl]

/-- Claim C8, amended.  Whenever `i_write(inode, buf, off, n)` succeeds,
the inode's size becomes
`size + (n - (ceil(size/block_size)*block_size - off))` — the old size
plus only the part of the write that extends past the capacity of the
blocks already counted by `size` — rather than `max(size, off+n)`; the
two agree exactly when `off + n` is at most that capacity (then the size
is unchanged) or when the old size is block-aligned.  In particular a
successful write that only overwrites bytes below the old size leaves
the size unchanged (as claimed), and every successful write with
`n ≥ 1` persists the returned inode via `i_put` (claimed; `i_get`
reads it back). -/
theorem C8_write_size_update (cfg : Cfg) (fs : FS) (ino : Nat × DInode)
    (buf : List Nat) (off n : Nat) (fs' : FS) (ino' : Nat × DInode)
    (hbs : 0 < fs.sb.block_size)
    (h : i_write cfg fs ino buf off n = .ok (fs', ino')) :
    ino'.2.size = ino.2.size +
      (n - (ceilDiv ino.2.size fs.sb.block_size * fs.sb.block_size - off)) ∧
    (off + n ≤ ino.2.size → ino'.2.size = ino.2.size) ∧
    (1 ≤ n → i_get cfg fs' ino.1 = .ok ino') := by
  have hso : off % fs.sb.block_size < fs.sb.block_size := Nat.mod_lt _ hbs
  have hsize_le : ino.2.size ≤ ceilDiv ino.2.size fs.sb.block_size * fs.sb.block_size :=
    ceilDiv_mul_ge _ _ hbs
  have hoffd : off / fs.sb.block_size * fs.sb.block_size + off % fs.sb.block_size = off := by
    rw [Nat.mul_comm]
    exact Nat.div_add_mod off fs.sb.block_size
  simp only [i_write] at h
  by_cases hoff : ino.2.size < off
  · rw [if_pos hoff] at h
    exact absurd h (by simp)
  rw [if_neg hoff] at h
  have hsbk_le : off / fs.sb.block_size ≤ ceilDiv ino.2.size fs.sb.block_size := by
    have h1 : off ≤ ceilDiv ino.2.size fs.sb.block_size * fs.sb.block_size := by omega
    have h2 : off / fs.sb.block_size ≤
        ceilDiv ino.2.size fs.sb.block_size * fs.sb.block_size / fs.sb.block_size :=
      Nat.div_le_div_right h1
    rwa [Nat.mul_div_cancel _ hbs] at h2
  rcases hwl : writeLoop ino.2.direct_blocks buf n (off / fs.sb.block_size)
      (off % fs.sb.block_size)
      (ceilDiv ino.2.size fs.sb.block_size - off / fs.sb.block_size)
      (off / fs.sb.block_size) fs 0 n with e | out
  · simp only [hwl] at h
    exact absurd h (by simp)
  simp only [hwl] at h
  cases out with
  | early fs1 =>
    injection h with h
    injection h with he1 he2
    subst he1
    subst he2
    rcases Nat.eq_zero_or_pos n with hn0 | hn0
    · subst hn0
      refine ⟨by omega, fun _ => rfl, fun hcon => absurd hcon (by omega)⟩
    · exfalso
      obtain ⟨fs'', cn'', hout, _, _⟩ :=
        writeLoop_spec ino.2.direct_blocks buf n (off / fs.sb.block_size)
          (off % fs.sb.block_size) fs.sb hso hn0 _ _ fs 0 n _ hwl rfl
          (Nat.le_refl _) (Or.inl ⟨by omega, by omega, hn0⟩)
      exact absurd hout (by simp)
  | through fs1 sp cn1 =>
    rcases hba : b_alloc cfg fs1 with e | p
    · simp only [hba] at h
      exact absurd h (by simp)
    simp only [hba] at h
    obtain ⟨idx, fs2⟩ := p
    rcases hbg : b_get fs2 (idx + fs.sb.datastart) with e | blk
    · simp only [hbg] at h
      exact absurd h (by simp)
    simp only [hbg] at h
    rcases hsl : slice buf sp n with e | chunk
    · simp only [hsl] at h
      exact absurd h (by simp)
    simp only [hsl] at h
    rcases hwb : writeBytes blk fs.sb.block_size 0 chunk with e | blk1
    · simp only [hwb] at h
      exact absurd h (by simp)
    simp only [hwb] at h
    rcases hbp : b_put fs2 blk1 with e | fs3
    · simp only [hbp] at h
      exact absurd h (by simp)
    simp only [hbp] at h
    by_cases hnd : ceilDiv ino.2.size fs.sb.block_size < ino.2.direct_blocks.length
    swap
    · rw [if_neg hnd] at h
      exact absurd h (by simp)
    rw [if_pos hnd] at h
    rcases hput : i_put cfg fs3
        (ino.1, { ino.2 with
                  size := ino.2.size + chunk.length,
                  direct_blocks := ino.2.direct_blocks.set
                    (ceilDiv ino.2.size fs.sb.block_size)
                    (idx + fs.sb.datastart) }) with e | fs4
    · simp only [hput] at h
      exact absurd h (by simp)
    simp only [hput] at h
    injection h with h
    injection h with he1 he2
    subst he1
    obtain ⟨hslo, hshi, hslen, _⟩ := slice_ok hsl
    have hsp_char : sp = min n (ceilDiv ino.2.size fs.sb.block_size *
        fs.sb.block_size - off) := by
      rcases Nat.eq_zero_or_pos n with hn0 | hn0
      · omega
      · obtain ⟨fs'', cn'', hout, _, _⟩ :=
          writeLoop_spec ino.2.direct_blocks buf n (off / fs.sb.block_size)
            (off % fs.sb.block_size) fs.sb hso hn0 _ _ fs 0 n _ hwl rfl
            (Nat.le_refl _) (Or.inl ⟨by omega, by omega, hn0⟩)
        injection hout with hq1 hq2 hq3
        rw [hq2, show off / fs.sb.block_size +
          (ceilDiv ino.2.size fs.sb.block_size - off / fs.sb.block_size) =
            ceilDiv ino.2.size fs.sb.block_size from by omega]
        congr 1
        omega
    refine ⟨?_, ?_, fun _ => ?_⟩
    · rw [← he2]
      show ino.2.size + chunk.length = _
      omega
    · intro hover
      rw [← he2]
      show ino.2.size + chunk.length = ino.2.size
      omega
    · rw [← he2]
      exact i_get_after_i_put cfg fs3 _ _ hput

/-- Inode for the C8 scenario: a file of size 2 whose single listed
block is the absolute address 7 (= `sbA.datastart`). -/
def c8Ino1 : DInode := ⟨.TFile, 0, 2, [7, 0, 0, 0, 0, 0, 0, 0, 0, 0, 0, 0]⟩

/-- State for the C8 scenario on `sbA`: inode 1 is `c8Ino1` and bitmap
bit 0 (its data block) is set. -/
def c8FS : FS :=
  { sb := sbA,
    itable := upd (fun _ _ => dfltDInode cfgA) 1
      (upd (fun _ => dfltDInode cfgA) 1 c8Ino1),
    bmap := fun g => if g = 0 then 1 else 0,
    data := fun _ _ => 0,
    dents := fun _ _ => dfltDirEntry cfgA }

/-- The three bytes written in the C8 scenario. -/
def c8Buf : List Nat := [9, 9, 9]

/-- The successful result of the C8 scenario write (the fallback arm is
never taken). -/
def c8pair : FS × (Nat × DInode) :=
  match i_write cfgA c8FS (1, c8Ino1) c8Buf 0 3 with
  | .ok p => p
  | .error _ => (c8FS, (0, dfltDInode cfgA))

/-- Claim C8, counterexample.  Writing 3 bytes at offset 0 into a file
of size 2 (one partly used block of size-4 blocks) succeeds but leaves
`size = 2`: the loop copies the overlapping bytes without growing the
size, and the fall-through allocation step grows it only by the length
of `buf[starting_point..n]`, here empty because the loop already set
`starting_point = n`.  The claimed `max(size, off + n)` is 3. -/
theorem C8_counterexample :
    ((i_write cfgA c8FS (1, c8Ino1) c8Buf 0 3).toOption.map fun p => p.2.2.size) =
      some 2 ∧ (2 : Nat) ≠ max 2 (0 + 3) :=
  ⟨by decide, by decide⟩

/-- Claim C2, amended.  The write/read round-trip holds only up to ONE
block, not `NDIRECT · block_size`: on a freshly formatted filesystem, for
a freshly allocated file inode (size 0, zeroed pointer list) and any
`1 ≤ n ≤ block_size`, `i_write(inode, src, 0, n)` succeeds and an
`i_read` of `n` bytes at offset 0 on the returned state and inode
recovers `src` byte-exactly.  (For `n > block_size` the write fails:
the loop body is skipped for a size-0 inode and the fall-through path
writes `buf[0..n]` into the single newly allocated block, whose
`write_data` rejects more than `block_size` bytes.) -/
theorem C2_write_read_roundtrip (cfg : Cfg) (sb : SuperBlock) (inum n : Nat)
    (src buf : List Nat)
    (hbs : 0 < sb.block_size)
    (hnd : 0 < sb.ndatablocks)
    (hnb : sb.datastart + sb.ndatablocks ≤ sb.nblocks)
    (hinum : inum + 1 ≤ sb.ninodes)
    (hinb : sb.inodestart + inum / (sb.block_size / cfg.dinodeSize) < sb.nblocks)
    (hndir : 0 < cfg.ndirect)
    (hn1 : 0 < n) (hnle : n ≤ sb.block_size)
    (hsrc : src.length = n) (hbuf : buf.length = n) :
    ∃ fs' ino',
      i_write cfg (freshFS cfg sb) (inum, ⟨.TFile, 0, 0, List.replicate cfg.ndirect 0⟩)
        src 0 n = .ok (fs', ino') ∧
      i_read fs' ino' buf 0 n = .ok (n, src) := by
  have hds_lt : sb.datastart < sb.nblocks := by omega
  obtain ⟨fs2, z, hba, hsb2, hit2, hbm2, hz1, hz2, hdata2, hdents2⟩ :=
    b_alloc_step cfg (freshFS cfg sb) 0 hbs hnd (by rw [fillPattern_zero]; rfl)
  have hsb2' : fs2.sb = sb := hsb2
  have hdata2' : fs2.data = fun _ _ => (0 : Nat) := by
    rw [hdata2]
    funext b o
    rw [upd_apply]
    split_ifs <;> rfl
  have hdents2' : fs2.dents = fun _ _ => dfltDirEntry cfg := by
    rw [hdents2]
    funext b o
    rw [upd_apply]
    split_ifs <;> rfl
  have hfsb : (freshFS cfg sb).sb = sb := rfl
  have hnvb0 : ceilDiv 0 sb.block_size = 0 := by
    unfold ceilDiv
    exact Nat.div_eq_of_lt (by omega)
  have hnvb1 : ceilDiv n sb.block_size = 1 := by
    unfold ceilDiv
    rw [show n + sb.block_size - 1 = sb.block_size * 1 + (n - 1) from by omega,
      Nat.mul_add_div hbs, Nat.div_eq_of_lt (by omega)]
  have hne0 : ¬ ((0 : Nat) = n) := by omega
  have hnlt : ¬ (sb.block_size < n) := by omega
  have hwl0 : ∀ (dbs bufx : List Nat) (nx sbkx sox ix spx cnx : Nat) (fsx : FS),
      writeLoop dbs bufx nx sbkx sox 0 ix fsx spx cnx = .ok (.through fsx spx cnx) :=
    fun _ _ _ _ _ _ _ _ _ => rfl
  have hbg2 : b_get fs2 sb.datastart =
      .ok ⟨sb.datastart, fun _ => 0, fun _ => dfltDirEntry cfg⟩ := by
    unfold b_get
    rw [hsb2', if_pos hds_lt, hdata2', hdents2']
  have hslice : slice src 0 n = .ok src := by
    unfold slice
    rw [if_pos ⟨Nat.zero_le n, by omega⟩, List.drop_zero, Nat.sub_zero, ← hsrc,
      List.take_length]
  have hwb2 : ∀ bl : Block, writeBytes bl sb.block_size 0 src =
      .ok { bl with bytes := fun o =>
        if 0 ≤ o ∧ o < 0 + src.length then src.getD (o - 0) 0 else bl.bytes o } := by
    intro bl
    unfold writeBytes
    rw [if_pos (by omega)]
  have hbp2 : ∀ bl : Block, bl.block_no = sb.datastart →
      b_put fs2 bl = .ok { fs2 with data := upd fs2.data sb.datastart bl.bytes,
                                    dents := upd fs2.dents sb.datastart bl.ents } := by
    intro bl hbl
    unfold b_put
    rw [hsb2', hbl, if_pos hds_lt]
  have hip2 : ∀ (fsx : FS) (dn : DInode), fsx.sb = sb →
      i_put cfg fsx (inum, dn) = .ok { fsx with
        itable := upd fsx.itable
          (sb.inodestart + inum / (sb.block_size / cfg.dinodeSize))
          (upd (fsx.itable (sb.inodestart + inum / (sb.block_size / cfg.dinodeSize)))
            (inum - sb.block_size / cfg.dinodeSize *
              (inum / (sb.block_size / cfg.dinodeSize))) dn) } := by
    intro fsx dn hx
    simp only [i_put, hx]
    rw [if_neg (by omega : ¬ (inum + 1 > sb.ninodes)), if_pos hinb]
  have hget0 : ((List.replicate cfg.ndirect 0).set 0 sb.datastart).get? 0 =
      some sb.datastart := by
    obtain ⟨k, hk⟩ : ∃ k, cfg.ndirect = k + 1 := ⟨cfg.ndirect - 1, by omega⟩
    rw [hk, List.replicate_succ]
    rfl
  have hbw : bufWrite buf src 0 = .ok src := by
    unfold bufWrite
    rw [if_pos (by omega), List.take_zero, List.nil_append, Nat.zero_add, hsrc,
      ← hbuf, List.drop_length, List.append_nil]
  have hread : ∀ fsx : FS, fsx.sb = sb →
      (∀ o, o < n → fsx.data sb.datastart o = src.getD o 0) →
      i_read fsx
        (inum, ⟨.TFile, 0, src.length, (List.replicate cfg.ndirect 0).set 0 sb.datastart⟩)
        buf 0 n = .ok (n, src) := by
    intro fsx hx hdat
    have hbgy : b_get fsx sb.datastart =
        .ok ⟨sb.datastart, fsx.data sb.datastart, fsx.dents sb.datastart⟩ := by
      unfold b_get
      rw [hx, if_pos hds_lt]
    have hchunk : (List.range n).map (fsx.data sb.datastart) = src := by
      refine List.ext_getElem ?_ ?_
      · rw [List.length_map, List.length_range, hsrc]
      · intro i h1 h2
        rw [List.getElem_map, List.getElem_range]
        have hi : i < n := by
          rw [List.length_map, List.length_range] at h1
          exact h1
        rw [hdat i hi, List.getD_eq_getElem]
    have hrb : readBytes ⟨sb.datastart, fsx.data sb.datastart, fsx.dents sb.datastart⟩
        sb.block_size 0 n =
        .ok ((List.range n).map fun t => fsx.data sb.datastart (0 + t)) := by
      unfold readBytes
      rw [if_pos (by omega)]
    have hrl : readLoop fsx ((List.replicate cfg.ndirect 0).set 0 sb.datastart)
        0 0 1 0 [] n = .ok (.early src) := by
      show readLoop fsx ((List.replicate cfg.ndirect 0).set 0 sb.datastart)
        0 0 (0 + 1) 0 [] n = _
      rw [readLoop]
      simp only [hget0, Nat.mod_self, Nat.zero_add, hx, hbgy, ite_self, Nat.sub_zero,
        hnlt, if_false, hrb, List.nil_append, hchunk]
    simp only [i_read, hx, hsrc, Nat.not_lt_zero, if_false, hne0, hnvb1,
      Nat.zero_div, Nat.zero_mod, Nat.sub_zero, hrl, hbw]
  exact ⟨_, _, by
    simp only [i_write, hfsb, Nat.lt_irrefl, Nat.not_lt_zero, if_false, Nat.zero_div,
      Nat.zero_mod, hnvb0, Nat.sub_self, hwl0, hba, Nat.zero_add, hbg2, hslice, hwb2,
      hbp2, hsb2', hip2, List.length_replicate, hndir, if_true]
    rfl, by
    refine hread _ ?_ ?_
    · rfl
    · intro o ho
      show upd fs2.data sb.datastart
          (fun o' => if 0 ≤ o' ∧ o' < src.length then src.getD (o' - 0) 0 else 0)
          sb.datastart o = src.getD o 0
      rw [upd_apply, if_pos rfl]
      show (if 0 ≤ o ∧ o < src.length then src.getD (o - 0) 0 else 0) = src.getD o 0
      rw [if_pos ⟨Nat.zero_le o, by omega⟩, Nat.sub_zero]⟩

/-- Claim C2, counterexample.  On `sbA` (block_size 4, NDIRECT 12) a
fresh-inode write of 5 bytes — well below `NDIRECT · block_size = 48` —
fails outright: the loop is skipped (size 0), and the fall-through path
tries to write all 5 bytes into the single newly allocated block, whose
bounds check rejects them. -/
theorem C2_counterexample :
    i_write cfgA (freshFS cfgA sbA) (1, ⟨.TFile, 0, 0, List.replicate 12 0⟩)
      (List.replicate 5 7) 0 5 = .error .DeviceError ∧ (5 : Nat) ≤ 12 * 4 :=
  ⟨rfl, by decide⟩

/-- Claim C2, witness: the amended round-trip at `sbA`, writing and
reading back the three bytes `[1, 2, 3]`. -/
theorem C2_witness :
    (0 : Nat) < sbA.block_size ∧ (3 : Nat) ≤ sbA.block_size ∧
    ∃ fs' ino',
      i_write cfgA (freshFS cfgA sbA) (1, ⟨.TFile, 0, 0, List.replicate cfgA.ndirect 0⟩)
        [1, 2, 3] 0 3 = .ok (fs', ino') ∧
      i_read fs' ino' [0, 0, 0] 0 3 = .ok (3, [1, 2, 3]) :=
  ⟨by decide, by decide,
    C2_write_read_roundtrip cfgA sbA 1 3 [1, 2, 3] [0, 0, 0] (by decide) (by decide)
      (by decide) (by decide) (by decide) (by decide) (by decide) (by decide)
      (by decide) (by decide)⟩

/-! ## Directory-entry names (c_dirs_support.rs lines 505-547) -/

/-- Rust's `str::len`: the UTF-8 byte length of a string. -/
def strBytes (s : List Char) : Nat := (s.map Char.utf8Size).sum

/-- `set_name_str` (lines 519-547), parametric in the character test
(`char::is_alphanumeric`, a Unicode property): reject the empty string,
byte length `≥ DIRNAME_SIZE` and any non-alphanumeric character; then
store the characters into a NUL-filled array of `DIRNAME_SIZE` chars.
The guards make `name.length < DIRNAME_SIZE` (chars never exceed bytes),
so the array write cannot overflow and the result is the name followed
by NUL padding. -/
def set_name_str (cfg : Cfg) (alnum : Char → Bool) (de : DirEntry) (name : List Char) :
    Option DirEntry :=
  if strBytes name = 0 then none
  else if cfg.dirnameSize ≤ strBytes name then none
  else if name.all alnum then
    some ⟨de.inum, name ++ List.replicate (cfg.dirnameSize - name.length) nulChar⟩
  else none

/-- `get_name_str` (lines 505-517): collect the stored characters up to
the first NUL. -/
def get_name_str (de : DirEntry) : List Char :=
  de.name.takeWhile (fun c => c != nulChar)

/-- `new_de` (lines 490-502): a directory entry with the requested inode
number and a `Default` (all-NUL) name array, passed through
`set_name_str`. -/
def new_de (cfg : Cfg) (alnum : Char → Bool) (inum : Nat) (name : List Char) :
    Option DirEntry :=
  set_name_str cfg alnum ⟨inum, List.replicate cfg.dirnameSize nulChar⟩ name

/-- The `while *DIRENTRY_SIZE + offset < sb.block_size` scan of
`dirlookup` (lines 572-584) over one fetched block, abstracted to
entry slots (`offset = j * DIRENTRY_SIZE`): return the first slot from
`j` upward whose entry's name decodes to `name`.  The fuel argument only
bounds the recursion; `block_size + 1` steps always suffice when
`0 < DIRENTRY_SIZE`. -/
def scanBlockL (cfg : Cfg) (bs : Nat) (ents : Nat → DirEntry) (name : List Char) :
    Nat → Nat → Option Nat
  | 0, _ => none
  | fuel + 1, j =>
    if cfg.direntrySize + j * cfg.direntrySize < bs then
      if get_name_str (ents j) = name then some j
      else scanBlockL cfg bs ents name fuel (j + 1)
    else none

/-- The `for i in 0..n_valid_blocks` loop of `dirlookup` (lines 563-584):
stop at a zero pointer, fetch each listed block at its raw pointer (no
`% datastart` here, unlike `dirlink`), scan its entries, and on a name
match yield the entry's inode number and the logical byte offset
`j*DIRENTRY_SIZE + i*(block_size - block_size % DIRENTRY_SIZE)`.
Arguments after the fixed data: remaining iterations and the block
index `i`. -/
def lookLoop (cfg : Cfg) (fs : FS) (dbs : List Nat) (name : List Char) :
    Nat → Nat → Except FsError (Option (Nat × Nat))
  | 0, _ => .ok none
  | r + 1, i =>
    match dbs.get? i with
    | none => .error .Panic
    | some db =>
      if db = 0 then .ok none
      else
        match b_get fs db with
        | .error e => .error e
        | .ok blk =>
          match scanBlockL cfg fs.sb.block_size blk.ents name (fs.sb.block_size + 1) 0 with
          | some j => .ok (some ((blk.ents j).inum,
              j * cfg.direntrySize +
                i * (fs.sb.block_size - fs.sb.block_size % cfg.direntrySize)))
          | none => lookLoop cfg fs dbs name r (i + 1)

/-- `dirlookup` (lines 549-586): require a directory, walk
`ceil(size / (block_size - block_size % DIRENTRY_SIZE))` listed blocks,
and return `(i_get(entry.inum), offset)` for the first matching entry.
The `f64` ceiling is exact on the in-range naturals involved. -/
def dirlookup (cfg : Cfg) (fs : FS) (dir : Nat × DInode) (name : List Char) :
    Except FsError ((Nat × DInode) × Nat) :=
  if dir.2.ft ≠ FType.TDir then .error .InodeNotDirectory
  else
    let epb := fs.sb.block_size - fs.sb.block_size % cfg.direntrySize
    let nvb := ceilDiv dir.2.size epb
    match lookLoop cfg fs dir.2.direct_blocks name nvb 0 with
    | .error e => .error e
    | .ok none => .error .SearchedDirectoryDoesntExist
    | .ok (some (inum, off)) =>
      match i_get cfg fs inum with
      | .error e => .error e
      | .ok ino => .ok (ino, off)

/-- The `while offset + *DIRENTRY_SIZE <= sb.block_size` scan of
`dirlink` (lines 628-657): the first slot from `j` upward holding an
empty entry (`inum == 0`).  Note the bound is inclusive where
`dirlookup`'s is strict. -/
def scanBlockFree (cfg : Cfg) (bs : Nat) (ents : Nat → DirEntry) :
    Nat → Nat → Option Nat
  | 0, _ => none
  | fuel + 1, j =>
    if j * cfg.direntrySize + cfg.direntrySize ≤ bs then
      if (ents j).inum = 0 then some j
      else scanBlockFree cfg bs ents fuel (j + 1)
    else none

/-- The block loop of `dirlink` (lines 622-658): fetch each listed block
at `direct_blocks[i] % datastart + datastart` (the `%` is present here,
unlike `dirlookup`) and yield the first block index, free slot and
fetched block. -/
def linkLoop (cfg : Cfg) (fs : FS) (dbs : List Nat) :
    Nat → Nat → Except FsError (Option (Nat × Nat × Block))
  | 0, _ => .ok none
  | r + 1, i =>
    match dbs.get? i with
    | none => .error .Panic
    | some db =>
      match b_get fs (db % fs.sb.datastart + fs.sb.datastart) with
      | .error e => .error e
      | .ok blk =>
        match scanBlockFree cfg fs.sb.block_size blk.ents (fs.sb.block_size + 1) 0 with
        | some j => .ok (some (i, j, blk))
        | none => linkLoop cfg fs dbs r (i + 1)

/-- `dirlink` (lines 588-679): require a directory, reject a name already
found by `dirlookup`, require the target inode to exist and not be free,
build the entry with `new_de` (`unwrap` panics on an invalid name), then
either store it in the first free slot of a listed block (growing `size`
only when the slot lies at or past the current size) or allocate a fresh
block, append it at `direct_blocks[n_valid_blocks]` and grow `size`.
When the target differs from the directory its `nlink` is incremented.
Returns the mutated state, the mutated directory inode (the Rust
`&mut` argument) and the entry's logical byte offset. -/
def dirlink (cfg : Cfg) (alnum : Char → Bool) (fs : FS) (dir : Nat × DInode)
    (name : List Char) (inum : Nat) :
    Except FsError (FS × (Nat × DInode) × Nat) :=
  if dir.2.ft ≠ FType.TDir then .error .InodeNotDirectory
  else if (dirlookup cfg fs dir name).isOk then .error .DirEntryNameAlreadyExists
  else
    match i_get cfg fs inum with
    | .error _ => .error .InodeInitializationError
    | .ok tgt =>
      if tgt.2.ft = FType.TFree then .error .InodeNotInUse
      else
        match new_de cfg alnum inum name with
        | none => .error .Panic
        | some de =>
          let bs := fs.sb.block_size
          let epb := bs - bs % cfg.direntrySize
          let nvb := ceilDiv dir.2.size epb
          match linkLoop cfg fs dir.2.direct_blocks nvb 0 with
          | .error e => .error e
          | .ok (some (i, j, blk)) =>
            match b_put fs { blk with ents := upd blk.ents j de } with
            | .error e => .error e
            | .ok fs1 =>
              let newSize :=
                if dir.2.size < j * cfg.direntrySize + i * epb + cfg.direntrySize
                then dir.2.size + cfg.direntrySize else dir.2.size
              let dir' := (dir.1, { dir.2 with size := newSize })
              match i_put cfg fs1 dir' with
              | .error e => .error e
              | .ok fs2 =>
                if inum ≠ dir.1 then
                  match i_get cfg fs2 inum with
                  | .error _ => .error .Panic
                  | .ok ref =>
                    match i_put cfg fs2
                        (ref.1, { ref.2 with nlink := ref.2.nlink + 1 }) with
                    | .error e => .error e
                    | .ok fs3 => .ok (fs3, dir', j * cfg.direntrySize + i * epb)
                else .ok (fs2, dir', j * cfg.direntrySize + i * epb)
          | .ok none =>
            match b_alloc cfg fs with
            | .error e => .error e
            | .ok (idx, fs1) =>
              match b_get fs1 (idx + fs.sb.datastart) with
              | .error e => .error e
              | .ok blk =>
                match b_put fs1 { blk with ents := upd blk.ents 0 de } with
                | .error e => .error e
                | .ok fs2 =>
                  if nvb < dir.2.direct_blocks.length then
                    let dir' := (dir.1, { dir.2 with
                      size := dir.2.size + cfg.direntrySize,
                      direct_blocks :=
                        dir.2.direct_blocks.set nvb (idx + fs.sb.datastart) })
                    match i_put cfg fs2 dir' with
                    | .error e => .error e
                    | .ok fs3 =>
                      if inum ≠ dir.1 then
                        match i_get cfg fs3 inum with
                        | .error _ => .error .Panic
                        | .ok ref =>
                          match i_put cfg fs3
                              (ref.1, { ref.2 with nlink := ref.2.nlink + 1 }) with
                          | .error e => .error e
                          | .ok fs4 =>
                            .ok (fs4, dir',
                              dir.2.size + cfg.direntrySize - cfg.direntrySize)
                      else
                        .ok (fs3, dir',
                          dir.2.size + cfg.direntrySize - cfg.direntrySize)
                  else .error .Panic

lemma slot_cond_lt (cfg : Cfg) (bs j : Nat) (hds : 0 < cfg.direntrySize)
    (hmod : bs % cfg.direntrySize ≠ 0) :
    cfg.direntrySize + j * cfg.direntrySize < bs ↔ j < bs / cfg.direntrySize := by
  have hdm := Nat.div_add_mod bs cfg.direntrySize
  have hr := Nat.mod_lt bs hds
  constructor
  · intro h
    by_contra hns
    push_neg at hns
    have h1 : bs / cfg.direntrySize * cfg.direntrySize ≤ j * cfg.direntrySize :=
      Nat.mul_le_mul_right _ hns
    have h2 : cfg.direntrySize * (bs / cfg.direntrySize) =
        bs / cfg.direntrySize * cfg.direntrySize := Nat.mul_comm _ _
    omega
  · intro h
    have h1 : (j + 1) * cfg.direntrySize ≤ bs / cfg.direntrySize * cfg.direntrySize :=
      Nat.mul_le_mul_right _ h
    have h2 : (j + 1) * cfg.direntrySize = j * cfg.direntrySize + cfg.direntrySize := by
      rw [Nat.succ_mul]
    have h3 : cfg.direntrySize * (bs / cfg.direntrySize) =
        bs / cfg.direntrySize * cfg.direntrySize := Nat.mul_comm _ _
    omega

lemma slot_cond_le (cfg : Cfg) (bs j : Nat) (hds : 0 < cfg.direntrySize)
    (hmod : bs % cfg.direntrySize ≠ 0) :
    j * cfg.direntrySize + cfg.direntrySize ≤ bs ↔ j < bs / cfg.direntrySize := by
  have hdm := Nat.div_add_mod bs cfg.direntrySize
  have hr := Nat.mod_lt bs hds
  constructor
  · intro h
    by_contra hns
    push_neg at hns
    have h1 : bs / cfg.direntrySize * cfg.direntrySize ≤ j * cfg.direntrySize :=
      Nat.mul_le_mul_right _ hns
    have h2 : cfg.direntrySize * (bs / cfg.direntrySize) =
        bs / cfg.direntrySize * cfg.direntrySize := Nat.mul_comm _ _
    omega
  · intro h
    have h1 : (j + 1) * cfg.direntrySize ≤ bs / cfg.direntrySize * cfg.direntrySize :=
      Nat.mul_le_mul_right _ h
    have h2 : (j + 1) * cfg.direntrySize = j * cfg.direntrySize + cfg.direntrySize := by
      rw [Nat.succ_mul]
    have h3 : cfg.direntrySize * (bs / cfg.direntrySize) =
        bs / cfg.direntrySize * cfg.direntrySize := Nat.mul_comm _ _
    omega

lemma ptr_mod (ds b : Nat) (h1 : ds ≤ b) (h2 : b < 2 * ds) : b % ds + ds = b := by
  have h3 : b % ds = (b - ds) % ds := Nat.mod_eq_sub_mod h1
  have h4 : (b - ds) % ds = b - ds := Nat.mod_eq_of_lt (by omega)
  omega

lemma ceilDiv_of_mod_ne (m s : Nat) (hs : 0 < s) (h : m % s ≠ 0) :
    ceilDiv m s = m / s + 1 := by
  have hdm := Nat.div_add_mod m s
  have hr := Nat.mod_lt m hs
  unfold ceilDiv
  rw [show m + s - 1 = s * (m / s) + ((m % s - 1) + s) from by omega,
    Nat.mul_add_div hs, Nat.add_div_right _ hs,
    show (m % s - 1) / s = 0 from Nat.div_eq_of_lt (by omega)]

lemma ceilDiv_of_mod_eq (m s : Nat) (hs : 0 < s) (h : m % s = 0) :
    ceilDiv m s = m / s := by
  have hdm := Nat.div_add_mod m s
  unfold ceilDiv
  rw [show m + s - 1 = s * (m / s) + (s - 1) from by omega, Nat.mul_add_div hs,
    show (s - 1) / s = 0 from Nat.div_eq_of_lt (by omega), Nat.add_zero]

lemma ceilDiv_succ (m s : Nat) (hs : 0 < s) : ceilDiv (m + 1) s = m / s + 1 := by
  unfold ceilDiv
  rw [show m + 1 + s - 1 = m + s from by omega, Nat.add_div_right _ hs]

lemma ceilDiv_mul_mul (m s d : Nat) (hd : 0 < d) (hs : 0 < s) :
    ceilDiv (m * d) (s * d) = ceilDiv m s := by
  have hsd : 0 < s * d := Nat.mul_pos hs hd
  rcases Nat.eq_zero_or_pos m with h0 | hm
  · subst h0
    unfold ceilDiv
    rw [Nat.zero_mul, Nat.zero_add, Nat.zero_add,
      show (s * d - 1) / (s * d) = 0 from Nat.div_eq_of_lt (by omega),
      show (s - 1) / s = 0 from Nat.div_eq_of_lt (by omega)]
  · have hmd : 0 < m * d := Nat.mul_pos hm hd
    have hp1 : ceilDiv (m * d) (s * d) = (m * d - 1) / (s * d) + 1 := by
      unfold ceilDiv
      rw [show m * d + s * d - 1 = (m * d - 1) + s * d from by omega,
        Nat.add_div_right _ hsd]
    have hp2 : ceilDiv m s = (m - 1) / s + 1 := by
      unfold ceilDiv
      rw [show m + s - 1 = (m - 1) + s from by omega, Nat.add_div_right _ hs]
    rw [hp1, hp2]
    congr 1
    rw [Nat.mul_comm s d, ← Nat.div_div_eq_div_mul]
    congr 1
    have h2 : (m - 1) * d + d = m * d := by
      rw [← Nat.succ_mul, Nat.succ_eq_add_one, Nat.sub_add_cancel hm]
    rw [show m * d - 1 = d * (m - 1) + (d - 1) from by
        rw [Nat.mul_comm d (m - 1)]; omega,
      Nat.mul_add_div hd, show (d - 1) / d = 0 from Nat.div_eq_of_lt (by omega),
      Nat.add_zero]

lemma scanBlockL_eq_some (cfg : Cfg) (bs : Nat) (ents : Nat → DirEntry)
    (name : List Char) (hds : 0 < cfg.direntrySize) (hmod : bs % cfg.direntrySize ≠ 0)
    (j0 : Nat) (hj0 : j0 < bs / cfg.direntrySize)
    (hmatch : get_name_str (ents j0) = name) :
    ∀ fuel j, j ≤ j0 → j0 - j < fuel →
      (∀ t, j ≤ t → t < j0 → get_name_str (ents t) ≠ name) →
      scanBlockL cfg bs ents name fuel j = some j0 := by
  intro fuel
  induction fuel with
  | zero =>
    intro j hj hf _
    omega
  | succ f ih =>
    intro j hj hf hno
    rw [scanBlockL]
    rw [if_pos ((slot_cond_lt cfg bs j hds hmod).mpr (by omega))]
    by_cases hjj : j = j0
    · subst hjj
      rw [if_pos hmatch]
    · rw [if_neg (hno j (Nat.le_refl j) (by omega))]
      exact ih (j + 1) (by omega) (by omega) (fun t ht1 ht2 => hno t (by omega) ht2)

lemma scanBlockL_eq_none (cfg : Cfg) (bs : Nat) (ents : Nat → DirEntry)
    (name : List Char) (hds : 0 < cfg.direntrySize) (hmod : bs % cfg.direntrySize ≠ 0)
    (hno : ∀ t, t < bs / cfg.direntrySize → get_name_str (ents t) ≠ name) :
    ∀ fuel j, bs / cfg.direntrySize - j < fuel →
      scanBlockL cfg bs ents name fuel j = none := by
  intro fuel
  induction fuel with
  | zero =>
    intro j hf
    omega
  | succ f ih =>
    intro j hf
    rw [scanBlockL]
    by_cases hj : j < bs / cfg.direntrySize
    · rw [if_pos ((slot_cond_lt cfg bs j hds hmod).mpr hj), if_neg (hno j hj)]
      exact ih (j + 1) (by omega)
    · rw [if_neg (fun hc => hj ((slot_cond_lt cfg bs j hds hmod).mp hc))]

lemma scanBlockFree_eq_some (cfg : Cfg) (bs : Nat) (ents : Nat → DirEntry)
    (hds : 0 < cfg.direntrySize) (hmod : bs % cfg.direntrySize ≠ 0)
    (j0 : Nat) (hj0 : j0 < bs / cfg.direntrySize)
    (hfree : (ents j0).inum = 0) :
    ∀ fuel j, j ≤ j0 → j0 - j < fuel →
      (∀ t, j ≤ t → t < j0 → (ents t).inum ≠ 0) →
      scanBlockFree cfg bs ents fuel j = some j0 := by
  intro fuel
  induction fuel with
  | zero =>
    intro j hj hf _
    omega
  | succ f ih =>
    intro j hj hf hno
    rw [scanBlockFree]
    rw [if_pos ((slot_cond_le cfg bs j hds hmod).mpr (by omega))]
    by_cases hjj : j = j0
    · subst hjj
      rw [if_pos hfree]
    · rw [if_neg (hno j (Nat.le_refl j) (by omega))]
      exact ih (j + 1) (by omega) (by omega) (fun t ht1 ht2 => hno t (by omega) ht2)

lemma scanBlockFree_eq_none (cfg : Cfg) (bs : Nat) (ents : Nat → DirEntry)
    (hds : 0 < cfg.direntrySize) (hmod : bs % cfg.direntrySize ≠ 0)
    (hno : ∀ t, t < bs / cfg.direntrySize → (ents t).inum ≠ 0) :
    ∀ fuel j, bs / cfg.direntrySize - j < fuel →
      scanBlockFree cfg bs ents fuel j = none := by
  intro fuel
  induction fuel with
  | zero =>
    intro j hf
    omega
  | succ f ih =>
    intro j hf
    rw [scanBlockFree]
    by_cases hj : j < bs / cfg.direntrySize
    · rw [if_pos ((slot_cond_le cfg bs j hds hmod).mpr hj), if_neg (hno j hj)]
      exact ih (j + 1) (by omega)
    · rw [if_neg (fun hc => hj ((slot_cond_le cfg bs j hds hmod).mp hc))]

/-- The all-NUL default name decodes to the empty string. -/
lemma get_name_dflt (cfg : Cfg) : get_name_str (dfltDirEntry cfg) = [] := by
  unfold get_name_str dfltDirEntry
  cases h : cfg.dirnameSize with
  | zero => rfl
  | succ m => rw [List.replicate_succ, List.takeWhile_cons, if_neg (by simp)]

lemma i_get_ok_inv (cfg : Cfg) (fs : FS) (k : Nat) (out : Nat × DInode)
    (h : i_get cfg fs k = .ok out) :
    k + 1 ≤ fs.sb.ninodes ∧
    fs.sb.inodestart + k / (fs.sb.block_size / cfg.dinodeSize) < fs.sb.nblocks ∧
    out = (k, fs.itable (fs.sb.inodestart + k / (fs.sb.block_size / cfg.dinodeSize))
      (k - fs.sb.block_size / cfg.dinodeSize *
        (k / (fs.sb.block_size / cfg.dinodeSize)))) := by
  simp only [i_get] at h
  split_ifs at h with h1 h2
  refine ⟨by omega, h2, ?_⟩
  injection h with h
  exact h.symm

lemma i_get_after_i_put_other (cfg : Cfg) (fs fs' : FS) (ino : Nat × DInode) (k : Nat)
    (hput : i_put cfg fs ino = .ok fs')
    (hne : k ≠ ino.1)
    (out : Nat × DInode)
    (hget : i_get cfg fs k = .ok out) :
    i_get cfg fs' k = .ok out := by
  obtain ⟨inum, dn⟩ := ino
  simp only [i_put] at hput
  split_ifs at hput with h1 h2
  injection hput with hput
  subst hput
  simp only [i_get] at hget ⊢
  split_ifs at hget with h3 h4
  rw [if_neg h3, if_pos h4, upd_apply]
  by_cases hblk : fs.sb.inodestart + k / (fs.sb.block_size / cfg.dinodeSize) =
      fs.sb.inodestart + inum / (fs.sb.block_size / cfg.dinodeSize)
  · have hslot : ¬ (k - fs.sb.block_size / cfg.dinodeSize *
        (k / (fs.sb.block_size / cfg.dinodeSize)) =
        inum - fs.sb.block_size / cfg.dinodeSize *
          (inum / (fs.sb.block_size / cfg.dinodeSize))) := by
      intro hs
      have hkq : k / (fs.sb.block_size / cfg.dinodeSize) =
          inum / (fs.sb.block_size / cfg.dinodeSize) := by omega
      have hdm1 := Nat.div_add_mod k (fs.sb.block_size / cfg.dinodeSize)
      have hdm2 := Nat.div_add_mod inum (fs.sb.block_size / cfg.dinodeSize)
      rw [hkq] at hdm1 hs
      have : k = inum := by omega
      exact hne this
    rw [if_pos hblk, upd_apply, if_neg hslot]
    rw [hblk] at hget
    exact hget
  · rw [if_neg hblk]
    exact hget

lemma i_put_eval (cfg : Cfg) (fsx : FS) (inum : Nat) (dn : DInode)
    (h1 : inum + 1 ≤ fsx.sb.ninodes)
    (h2 : fsx.sb.inodestart + inum / (fsx.sb.block_size / cfg.dinodeSize) <
      fsx.sb.nblocks) :
    i_put cfg fsx (inum, dn) = .ok { fsx with
      itable := upd fsx.itable
        (fsx.sb.inodestart + inum / (fsx.sb.block_size / cfg.dinodeSize))
        (upd (fsx.itable (fsx.sb.inodestart + inum / (fsx.sb.block_size / cfg.dinodeSize)))
          (inum - fsx.sb.block_size / cfg.dinodeSize *
            (inum / (fsx.sb.block_size / cfg.dinodeSize))) dn) } := by
  simp only [i_put]
  rw [if_neg (by omega), if_pos h2]

lemma lookLoop_none (cfg : Cfg) (fs : FS) (dbs : List Nat) (name : List Char)
    (hds : 0 < cfg.direntrySize)
    (hmod : fs.sb.block_size % cfg.direntrySize ≠ 0) :
    ∀ r i, (∀ t, i ≤ t → t < i + r →
        ∃ b, dbs.get? t = some b ∧ b ≠ 0 ∧ b < fs.sb.nblocks ∧
          ∀ j, j < fs.sb.block_size / cfg.direntrySize →
            get_name_str (fs.dents b j) ≠ name) →
      lookLoop cfg fs dbs name r i = .ok none := by
  intro r
  induction r with
  | zero =>
    intro i _
    rfl
  | succ r ih =>
    intro i h
    obtain ⟨b, hget, hb0, hbn, hnames⟩ := h i (Nat.le_refl i) (by omega)
    have hbg : b_get fs b = .ok ⟨b, fs.data b, fs.dents b⟩ := by
      unfold b_get
      rw [if_pos hbn]
    have hscan : scanBlockL cfg fs.sb.block_size (fs.dents b) name
        (fs.sb.block_size + 1) 0 = none :=
      scanBlockL_eq_none cfg _ _ _ hds hmod hnames _ 0
        (by have := Nat.div_le_self fs.sb.block_size cfg.direntrySize; omega)
    simp only [lookLoop, hget]
    rw [if_neg hb0]
    simp only [hbg, hscan]
    exact ih (i + 1) (fun t ht1 ht2 => h t (by omega) (by omega))

lemma lookLoop_found (cfg : Cfg) (fs : FS) (dbs : List Nat) (name : List Char)
    (hds : 0 < cfg.direntrySize)
    (hmod : fs.sb.block_size % cfg.direntrySize ≠ 0)
    (i0 j0 b0 : Nat)
    (hpre : ∀ t, t < i0 → ∃ b, dbs.get? t = some b ∧ b ≠ 0 ∧ b < fs.sb.nblocks ∧
      ∀ j, j < fs.sb.block_size / cfg.direntrySize →
        get_name_str (fs.dents b j) ≠ name)
    (hb0get : dbs.get? i0 = some b0) (hb00 : b0 ≠ 0) (hb0n : b0 < fs.sb.nblocks)
    (hj0 : j0 < fs.sb.block_size / cfg.direntrySize)
    (hmatch : get_name_str (fs.dents b0 j0) = name)
    (hnomatch : ∀ j, j < j0 → get_name_str (fs.dents b0 j) ≠ name) :
    ∀ r i, i ≤ i0 → i0 - i < r →
      lookLoop cfg fs dbs name r i = .ok (some ((fs.dents b0 j0).inum,
        j0 * cfg.direntrySize +
          i0 * (fs.sb.block_size - fs.sb.block_size % cfg.direntrySize))) := by
  intro r
  induction r with
  | zero =>
    intro i _ hf
    omega
  | succ r ih =>
    intro i hi hf
    by_cases hii : i = i0
    · rw [hii]
      have hbg : b_get fs b0 = .ok ⟨b0, fs.data b0, fs.dents b0⟩ := by
        unfold b_get
        rw [if_pos hb0n]
      have hscan : scanBlockL cfg fs.sb.block_size (fs.dents b0) name
          (fs.sb.block_size + 1) 0 = some j0 :=
        scanBlockL_eq_some cfg _ _ _ hds hmod j0 hj0 hmatch _ 0 (Nat.zero_le _)
          (by have := Nat.div_le_self fs.sb.block_size cfg.direntrySize; omega)
          (fun t _ ht2 => hnomatch t ht2)
      simp only [lookLoop, hb0get]
      rw [if_neg hb00]
      simp only [hbg, hscan]
    · obtain ⟨b, hget, hbz, hbn, hnames⟩ := hpre i (by omega)
      have hbg : b_get fs b = .ok ⟨b, fs.data b, fs.dents b⟩ := by
        unfold b_get
        rw [if_pos hbn]
      have hscan : scanBlockL cfg fs.sb.block_size (fs.dents b) name
          (fs.sb.block_size + 1) 0 = none :=
        scanBlockL_eq_none cfg _ _ _ hds hmod hnames _ 0
          (by have := Nat.div_le_self fs.sb.block_size cfg.direntrySize; omega)
      simp only [lookLoop, hget]
      rw [if_neg hbz]
      simp only [hbg, hscan]
      exact ih (i + 1) (by omega) (by omega)

lemma linkLoop_none (cfg : Cfg) (fs : FS) (dbs : List Nat)
    (hds : 0 < cfg.direntrySize)
    (hmod : fs.sb.block_size % cfg.direntrySize ≠ 0) :
    ∀ r i, (∀ t, i ≤ t → t < i + r →
        ∃ b, dbs.get? t = some b ∧
          b % fs.sb.datastart + fs.sb.datastart < fs.sb.nblocks ∧
          ∀ j, j < fs.sb.block_size / cfg.direntrySize →
            (fs.dents (b % fs.sb.datastart + fs.sb.datastart) j).inum ≠ 0) →
      linkLoop cfg fs dbs r i = .ok none := by
  intro r
  induction r with
  | zero =>
    intro i _
    rfl
  | succ r ih =>
    intro i h
    obtain ⟨b, hget, hbn, hfull⟩ := h i (Nat.le_refl i) (by omega)
    have hbg : b_get fs (b % fs.sb.datastart + fs.sb.datastart) =
        .ok ⟨b % fs.sb.datastart + fs.sb.datastart,
          fs.data (b % fs.sb.datastart + fs.sb.datastart),
          fs.dents (b % fs.sb.datastart + fs.sb.datastart)⟩ := by
      unfold b_get
      rw [if_pos hbn]
    have hscan : scanBlockFree cfg fs.sb.block_size
        (fs.dents (b % fs.sb.datastart + fs.sb.datastart))
        (fs.sb.block_size + 1) 0 = none :=
      scanBlockFree_eq_none cfg _ _ hds hmod hfull _ 0
        (by have := Nat.div_le_self fs.sb.block_size cfg.direntrySize; omega)
    simp only [linkLoop, hget, hbg, hscan]
    exact ih (i + 1) (fun t ht1 ht2 => h t (by omega) (by omega))

lemma linkLoop_found (cfg : Cfg) (fs : FS) (dbs : List Nat)
    (hds : 0 < cfg.direntrySize)
    (hmod : fs.sb.block_size % cfg.direntrySize ≠ 0)
    (i0 j0 b0 : Nat)
    (hpre : ∀ t, t < i0 → ∃ b, dbs.get? t = some b ∧
      b % fs.sb.datastart + fs.sb.datastart < fs.sb.nblocks ∧
      ∀ j, j < fs.sb.block_size / cfg.direntrySize →
        (fs.dents (b % fs.sb.datastart + fs.sb.datastart) j).inum ≠ 0)
    (hb0get : dbs.get? i0 = some b0)
    (hb0n : b0 % fs.sb.datastart + fs.sb.datastart < fs.sb.nblocks)
    (hj0 : j0 < fs.sb.block_size / cfg.direntrySize)
    (hfree : (fs.dents (b0 % fs.sb.datastart + fs.sb.datastart) j0).inum = 0)
    (hnz : ∀ j, j < j0 →
      (fs.dents (b0 % fs.sb.datastart + fs.sb.datastart) j).inum ≠ 0) :
    ∀ r i, i ≤ i0 → i0 - i < r →
      linkLoop cfg fs dbs r i = .ok (some (i0, j0,
        ⟨b0 % fs.sb.datastart + fs.sb.datastart,
          fs.data (b0 % fs.sb.datastart + fs.sb.datastart),
          fs.dents (b0 % fs.sb.datastart + fs.sb.datastart)⟩)) := by
  intro r
  induction r with
  | zero =>
    intro i _ hf
    omega
  | succ r ih =>
    intro i hi hf
    by_cases hii : i = i0
    · rw [hii]
      have hbg : b_get fs (b0 % fs.sb.datastart + fs.sb.datastart) =
          .ok ⟨b0 % fs.sb.datastart + fs.sb.datastart,
            fs.data (b0 % fs.sb.datastart + fs.sb.datastart),
            fs.dents (b0 % fs.sb.datastart + fs.sb.datastart)⟩ := by
        unfold b_get
        rw [if_pos hb0n]
      have hscan : scanBlockFree cfg fs.sb.block_size
          (fs.dents (b0 % fs.sb.datastart + fs.sb.datastart))
          (fs.sb.block_size + 1) 0 = some j0 :=
        scanBlockFree_eq_some cfg _ _ hds hmod j0 hj0 hfree _ 0 (Nat.zero_le _)
          (by have := Nat.div_le_self fs.sb.block_size cfg.direntrySize; omega)
          (fun t _ ht2 => hnz t ht2)
      simp only [linkLoop, hb0get, hbg, hscan]
    · obtain ⟨b, hget, hbn, hfull⟩ := hpre i (by omega)
      have hbg : b_get fs (b % fs.sb.datastart + fs.sb.datastart) =
          .ok ⟨b % fs.sb.datastart + fs.sb.datastart,
            fs.data (b % fs.sb.datastart + fs.sb.datastart),
            fs.dents (b % fs.sb.datastart + fs.sb.datastart)⟩ := by
        unfold b_get
        rw [if_pos hbn]
      have hscan : scanBlockFree cfg fs.sb.block_size
          (fs.dents (b % fs.sb.datastart + fs.sb.datastart))
          (fs.sb.block_size + 1) 0 = none :=
        scanBlockFree_eq_none cfg _ _ hds hmod hfull _ 0
          (by have := Nat.div_le_self fs.sb.block_size cfg.direntrySize; omega)
      simp only [linkLoop, hget, hbg, hscan]
      exact ih (i + 1) (by omega) (by omega)

/-- Claim C10, confirmed.  Every non-empty, all-alphanumeric name whose
byte length is below `DIRNAME_SIZE` round-trips: `set_name_str` accepts
it and `get_name_str` on the resulting entry returns exactly the name.
The character test is abstract; it only needs to reject NUL (true of
Rust's `char::is_alphanumeric`), so that the stored characters stop the
NUL scan nowhere before the padding. -/
theorem C10_name_roundtrip (cfg : Cfg) (alnum : Char → Bool) (de : DirEntry)
    (name : List Char)
    (hnul : alnum nulChar = false)
    (hne : name ≠ [])
    (hlen : strBytes name < cfg.dirnameSize)
    (hall : ∀ c ∈ name, alnum c = true) :
    ∃ de', set_name_str cfg alnum de name = some de' ∧ get_name_str de' = name := by
  have hchars_le : ∀ l : List Char, l.length ≤ strBytes l := by
    intro l
    induction l with
    | nil => simp [strBytes]
    | cons a t ih =>
      have ha : 0 < a.utf8Size := Char.utf8Size_pos a
      have h2 : strBytes (a :: t) = a.utf8Size + strBytes t := by
        unfold strBytes
        rw [List.map_cons, List.sum_cons]
      rw [List.length_cons, h2]
      omega
  have hchars : name.length ≤ strBytes name := hchars_le name
  have hnn : ∀ c ∈ name, (c != nulChar) = true := by
    intro c hc
    have h1 := hall c hc
    by_cases hcn : c = nulChar
    · rw [hcn] at h1
      rw [h1] at hnul
      exact absurd hnul (by simp)
    · simp [hcn]
  have hs0 : ¬ strBytes name = 0 := by
    have : 0 < name.length := List.length_pos.mpr hne
    omega
  have htw1 : ∀ (l1 l2 : List Char), (∀ c ∈ l1, (c != nulChar) = true) →
      (l1 ++ l2).takeWhile (fun c => c != nulChar) =
        l1 ++ l2.takeWhile (fun c => c != nulChar) := by
    intro l1
    induction l1 with
    | nil =>
      intro l2 h
      simp
    | cons a t ih =>
      intro l2 h
      rw [List.cons_append, List.takeWhile_cons,
        if_pos (h a (List.mem_cons_self a t)), List.cons_append,
        ih l2 (fun c hc => h c (List.mem_cons_of_mem a hc))]
  have htw2 : ∀ k : Nat, (List.replicate k nulChar).takeWhile (fun c => c != nulChar) =
      [] := by
    intro k
    cases k with
    | zero => rfl
    | succ m => rw [List.replicate_succ, List.takeWhile_cons, if_neg (by simp)]
  refine ⟨⟨de.inum, name ++ List.replicate (cfg.dirnameSize - name.length) nulChar⟩,
    ?_, ?_⟩
  · unfold set_name_str
    rw [if_neg hs0, if_neg (by omega), if_pos (List.all_eq_true.mpr hall)]
  · unfold get_name_str
    rw [htw1 _ _ hnn, htw2, List.append_nil]

/-- Claim C10, witness: the two-character name `"ab"` round-trips through
a default entry with the ASCII alphanumeric test. -/
theorem C10_witness :
    Char.isAlphanum nulChar = false ∧
    (∃ de', set_name_str cfgA Char.isAlphanum (dfltDirEntry cfgA) (['a', 'b']) = some de' ∧
      get_name_str de' = ['a', 'b']) :=
  ⟨by decide, C10_name_roundtrip cfgA Char.isAlphanum (dfltDirEntry cfgA) (['a', 'b'])
    (by decide) (by decide) (by decide) (by decide)⟩

/-- Claim C8, witness: the amended size formula evaluated on the
scenario write — the size becomes `2 + (3 - (1*4 - 0)) = 2`. -/
theorem C8_witness :
    0 < c8FS.sb.block_size ∧
    i_write cfgA c8FS (1, c8Ino1) c8Buf 0 3 = .ok (c8pair.1, c8pair.2) ∧
    c8pair.2.2.size = c8Ino1.size +
      (3 - (ceilDiv c8Ino1.size c8FS.sb.block_size * c8FS.sb.block_size - 0)) :=
  ⟨by decide, rfl,
    (C8_write_size_update cfgA c8FS (1, c8Ino1) c8Buf 0 3 c8pair.1 c8pair.2
      (by decide) rfl).1⟩

lemma dirlookup_none_eval (cfg : Cfg) (fsx : FS) (dinum : Nat) (ddn' : DInode)
    (name : List Char) (hds : 0 < cfg.direntrySize)
    (hmod : fsx.sb.block_size % cfg.direntrySize ≠ 0)
    (hft : ddn'.ft = FType.TDir) (B : Nat)
    (hsz : ceilDiv ddn'.size (fsx.sb.block_size - fsx.sb.block_size % cfg.direntrySize) = B)
    (hpre : ∀ t, t < B → ∃ b, ddn'.direct_blocks.get? t = some b ∧ b ≠ 0 ∧
      b < fsx.sb.nblocks ∧ ∀ j, j < fsx.sb.block_size / cfg.direntrySize →
        get_name_str (fsx.dents b j) ≠ name) :
    dirlookup cfg fsx (dinum, ddn') name = .error .SearchedDirectoryDoesntExist := by
  have hloop := lookLoop_none cfg fsx ddn'.direct_blocks name hds hmod B 0
    (fun t ht1 ht2 => hpre t (by omega))
  simp only [dirlookup]
  rw [if_neg (show ¬ (ddn'.ft ≠ FType.TDir) from by rw [hft]; exact fun hc => hc rfl)]
  rw [hsz]
  simp only [hloop]

lemma dirlookup_found_eval (cfg : Cfg) (fsx : FS) (dinum : Nat) (ddn' : DInode)
    (name : List Char) (k : Nat) (ko : Nat × DInode) (i1 j1 b1 : Nat)
    (hds : 0 < cfg.direntrySize)
    (hmod : fsx.sb.block_size % cfg.direntrySize ≠ 0)
    (hft : ddn'.ft = FType.TDir)
    (hsz : ceilDiv ddn'.size (fsx.sb.block_size - fsx.sb.block_size % cfg.direntrySize) =
      i1 + 1)
    (hpre : ∀ t, t < i1 → ∃ b, ddn'.direct_blocks.get? t = some b ∧ b ≠ 0 ∧
      b < fsx.sb.nblocks ∧ ∀ j, j < fsx.sb.block_size / cfg.direntrySize →
        get_name_str (fsx.dents b j) ≠ name)
    (hg1 : ddn'.direct_blocks.get? i1 = some b1) (hb1z : b1 ≠ 0)
    (hb1n : b1 < fsx.sb.nblocks)
    (hj1 : j1 < fsx.sb.block_size / cfg.direntrySize)
    (hm1 : get_name_str (fsx.dents b1 j1) = name)
    (hk1 : (fsx.dents b1 j1).inum = k)
    (hnm1 : ∀ j, j < j1 → get_name_str (fsx.dents b1 j) ≠ name)
    (hko : i_get cfg fsx k = .ok ko) :
    dirlookup cfg fsx (dinum, ddn') name =
      .ok (ko, j1 * cfg.direntrySize +
        i1 * (fsx.sb.block_size - fsx.sb.block_size % cfg.direntrySize)) := by
  have hloop := lookLoop_found cfg fsx ddn'.direct_blocks name hds hmod i1 j1 b1 hpre
    hg1 hb1z hb1n hj1 hm1 hnm1 (i1 + 1) 0 (Nat.zero_le _) (by omega)
  simp only [dirlookup]
  rw [if_neg (show ¬ (ddn'.ft ≠ FType.TDir) from by rw [hft]; exact fun hc => hc rfl)]
  rw [hsz]
  simp only [hloop, hk1, hko]

/-- Claim C7, amended.  The link/lookup round-trip needs hypotheses the
original claim lacks: on a canonical directory (entries packed into the
first `m` slots, every listed block pointer inside
`[datastart, 2*datastart)` so that `dirlink`'s `% datastart + datastart`
re-addressing is the identity, distinct pointers, and
`block_size % DIRENTRY_SIZE ≠ 0` so that `dirlink`'s inclusive slot
bound and `dirlookup`'s strict one agree), linking a fresh valid name to
an in-use inode `k` succeeds with logical offset `m * DIRENTRY_SIZE`,
and `dirlookup` on the resulting state and directory inode returns
exactly `(i_get(k), m * DIRENTRY_SIZE)` — both when a listed block still
has a free slot (`m % slots_per_block ≠ 0`) and when a fresh block is
allocated and appended (`m % slots_per_block = 0`, with a first-fit
bitmap state).  Without the pointer-range hypothesis the claim is false
(see the counterexample): `dirlink` and `dirlookup` address different
blocks. -/
theorem C7_link_lookup_roundtrip (cfg : Cfg) (alnum : Char → Bool) (fs : FS)
    (dinum : Nat) (ddn : DInode) (name : List Char) (k : Nat) (tdn : DInode)
    (de : DirEntry) (m M : Nat) (bi : Nat → Nat)
    (hds : 0 < cfg.direntrySize)
    (hdsbs : cfg.direntrySize ≤ fs.sb.block_size)
    (hmod : fs.sb.block_size % cfg.direntrySize ≠ 0)
    (hds0 : 0 < fs.sb.datastart)
    (hft : ddn.ft = FType.TDir)
    (hsize : ddn.size = m * cfg.direntrySize)
    (hdn1 : dinum + 1 ≤ fs.sb.ninodes)
    (hdn2 : fs.sb.inodestart + dinum / (fs.sb.block_size / cfg.dinodeSize) <
      fs.sb.nblocks)
    (hblocks : ∀ i, i < ceilDiv m (fs.sb.block_size / cfg.direntrySize) →
      ddn.direct_blocks.get? i = some (bi i) ∧ fs.sb.datastart ≤ bi i ∧
      bi i < 2 * fs.sb.datastart ∧ bi i < fs.sb.nblocks)
    (hinj : ∀ i i', i < ceilDiv m (fs.sb.block_size / cfg.direntrySize) →
      i' < ceilDiv m (fs.sb.block_size / cfg.direntrySize) → bi i = bi i' → i = i')
    (hfull : ∀ i j, i < ceilDiv m (fs.sb.block_size / cfg.direntrySize) →
      j < fs.sb.block_size / cfg.direntrySize →
      i * (fs.sb.block_size / cfg.direntrySize) + j < m →
      (fs.dents (bi i) j).inum ≠ 0 ∧ get_name_str (fs.dents (bi i) j) ≠ name)
    (hfree : ∀ i j, i < ceilDiv m (fs.sb.block_size / cfg.direntrySize) →
      j < fs.sb.block_size / cfg.direntrySize →
      m ≤ i * (fs.sb.block_size / cfg.direntrySize) + j →
      fs.dents (bi i) j = dfltDirEntry cfg)
    (htget : i_get cfg fs k = .ok (k, tdn))
    (htfree : tdn.ft ≠ FType.TFree)
    (hname : name ≠ [])
    (hde : new_de cfg alnum k name = some de)
    (hdei : de.inum = k)
    (hden : get_name_str de = name)
    (hcase : m % (fs.sb.block_size / cfg.direntrySize) ≠ 0 ∨
      (m % (fs.sb.block_size / cfg.direntrySize) = 0 ∧ fs.bmap = fillPattern M ∧
        M < fs.sb.ndatablocks ∧
        ceilDiv m (fs.sb.block_size / cfg.direntrySize) < ddn.direct_blocks.length ∧
        fs.sb.datastart + fs.sb.ndatablocks ≤ fs.sb.nblocks ∧
        ∀ i, i < ceilDiv m (fs.sb.block_size / cfg.direntrySize) →
          bi i < fs.sb.datastart + M)) :
    ∃ fs' ddn' ko,
      dirlink cfg alnum fs (dinum, ddn) name k =
        .ok (fs', (dinum, ddn'), m * cfg.direntrySize) ∧
      i_get cfg fs' k = .ok ko ∧
      dirlookup cfg fs' (dinum, ddn') name = .ok (ko, m * cfg.direntrySize) := by
  have hspb : 0 < fs.sb.block_size / cfg.direntrySize := Nat.div_pos hdsbs hds
  have hbs0 : 0 < fs.sb.block_size := by omega
  have hepb : fs.sb.block_size - fs.sb.block_size % cfg.direntrySize =
      fs.sb.block_size / cfg.direntrySize * cfg.direntrySize := by
    have hdm := Nat.div_add_mod fs.sb.block_size cfg.direntrySize
    have h2 : cfg.direntrySize * (fs.sb.block_size / cfg.direntrySize) =
        fs.sb.block_size / cfg.direntrySize * cfg.direntrySize := Nat.mul_comm _ _
    omega
  have hnvb : ceilDiv (m * cfg.direntrySize)
      (fs.sb.block_size - fs.sb.block_size % cfg.direntrySize) =
      ceilDiv m (fs.sb.block_size / cfg.direntrySize) := by
    rw [hepb]
    exact ceilDiv_mul_mul m _ _ hds hspb
  have hnvb' : ceilDiv (m * cfg.direntrySize + cfg.direntrySize)
      (fs.sb.block_size - fs.sb.block_size % cfg.direntrySize) =
      m / (fs.sb.block_size / cfg.direntrySize) + 1 := by
    rw [hepb, show m * cfg.direntrySize + cfg.direntrySize =
      (m + 1) * cfg.direntrySize from (Nat.succ_mul m cfg.direntrySize).symm,
      ceilDiv_mul_mul (m + 1) _ _ hds hspb, ceilDiv_succ m _ hspb]
  have hdflt_ne : ∀ e : DirEntry, e = dfltDirEntry cfg → get_name_str e ≠ name := by
    intro e he
    rw [he, get_name_dflt]
    exact fun hc => hname hc.symm
  have hprelook : dirlookup cfg fs (dinum, ddn) name =
      .error .SearchedDirectoryDoesntExist := by
    refine dirlookup_none_eval cfg fs dinum ddn name hds hmod hft
      (ceilDiv m (fs.sb.block_size / cfg.direntrySize)) (by rw [hsize]; exact hnvb) ?_
    intro t ht
    obtain ⟨hg, hb1, hb2, hb3⟩ := hblocks t ht
    refine ⟨bi t, hg, by omega, hb3, ?_⟩
    intro j hj
    by_cases hlt : t * (fs.sb.block_size / cfg.direntrySize) + j < m
    · exact (hfull t j ht hj hlt).2
    · exact hdflt_ne _ (hfree t j ht hj (by omega))
  have hok : (dirlookup cfg fs (dinum, ddn) name).isOk = false := by
    rw [hprelook]
    rfl
  obtain ⟨hki1, hki2, _⟩ := i_get_ok_inv cfg fs k (k, tdn) htget
  rcases hcase with hmne | ⟨hmeq, hbm, hM, hBlen, hnbound, hbiM⟩
  · -- free slot inside an existing block
    have hm0 : 0 < m := by
      rcases Nat.eq_zero_or_pos m with h0 | h
      · exact absurd (by rw [h0]; exact Nat.zero_mod _) hmne
      · exact h
    have hB : ceilDiv m (fs.sb.block_size / cfg.direntrySize) =
        m / (fs.sb.block_size / cfg.direntrySize) + 1 :=
      ceilDiv_of_mod_ne _ _ hspb hmne
    have hi0lt : m / (fs.sb.block_size / cfg.direntrySize) <
        ceilDiv m (fs.sb.block_size / cfg.direntrySize) := by
      rw [hB]
      omega
    have hfB : m / (fs.sb.block_size / cfg.direntrySize) - 0 <
        ceilDiv m (fs.sb.block_size / cfg.direntrySize) := by
      rw [Nat.sub_zero, hB]
      exact Nat.lt_succ_self _
    have hj0lt : m % (fs.sb.block_size / cfg.direntrySize) <
        fs.sb.block_size / cfg.direntrySize := Nat.mod_lt _ hspb
    have hgslot : m / (fs.sb.block_size / cfg.direntrySize) *
        (fs.sb.block_size / cfg.direntrySize) +
        m % (fs.sb.block_size / cfg.direntrySize) = m := by
      have hdm := Nat.div_add_mod m (fs.sb.block_size / cfg.direntrySize)
      have h2 : (fs.sb.block_size / cfg.direntrySize) *
          (m / (fs.sb.block_size / cfg.direntrySize)) =
          m / (fs.sb.block_size / cfg.direntrySize) *
            (fs.sb.block_size / cfg.direntrySize) := Nat.mul_comm _ _
      omega
    obtain ⟨hg0, hbge, hblt, hbnb⟩ :=
      hblocks (m / (fs.sb.block_size / cfg.direntrySize)) hi0lt
    have haddr : bi (m / (fs.sb.block_size / cfg.direntrySize)) % fs.sb.datastart +
        fs.sb.datastart = bi (m / (fs.sb.block_size / cfg.direntrySize)) :=
      ptr_mod _ _ hbge hblt
    have hlinkpre : ∀ t, t < m / (fs.sb.block_size / cfg.direntrySize) →
        ∃ b, ddn.direct_blocks.get? t = some b ∧
          b % fs.sb.datastart + fs.sb.datastart < fs.sb.nblocks ∧
          ∀ j, j < fs.sb.block_size / cfg.direntrySize →
            (fs.dents (b % fs.sb.datastart + fs.sb.datastart) j).inum ≠ 0 := by
      intro t ht
      obtain ⟨hg, hb1, hb2, hb3⟩ := hblocks t (by omega)
      have haddr' : bi t % fs.sb.datastart + fs.sb.datastart = bi t :=
        ptr_mod _ _ hb1 hb2
      refine ⟨bi t, hg, by rw [haddr']; exact hb3, ?_⟩
      intro j hj
      rw [haddr']
      refine (hfull t j (by omega) hj ?_).1
      have h1 : (t + 1) * (fs.sb.block_size / cfg.direntrySize) ≤
          m / (fs.sb.block_size / cfg.direntrySize) *
            (fs.sb.block_size / cfg.direntrySize) :=
        Nat.mul_le_mul_right _ (by omega)
      have h2 : (t + 1) * (fs.sb.block_size / cfg.direntrySize) =
          t * (fs.sb.block_size / cfg.direntrySize) +
            (fs.sb.block_size / cfg.direntrySize) := by
        rw [Nat.succ_mul]
      omega
    have hfree0 : (fs.dents (bi (m / (fs.sb.block_size / cfg.direntrySize)) %
        fs.sb.datastart + fs.sb.datastart)
        (m % (fs.sb.block_size / cfg.direntrySize))).inum = 0 := by
      rw [haddr, hfree (m / (fs.sb.block_size / cfg.direntrySize))
        (m % (fs.sb.block_size / cfg.direntrySize)) hi0lt hj0lt
        (Nat.le_of_eq hgslot.symm)]
      rfl
    have hnz0 : ∀ j, j < m % (fs.sb.block_size / cfg.direntrySize) →
        (fs.dents (bi (m / (fs.sb.block_size / cfg.direntrySize)) % fs.sb.datastart +
          fs.sb.datastart) j).inum ≠ 0 := by
      intro j hj
      rw [haddr]
      exact (hfull (m / (fs.sb.block_size / cfg.direntrySize)) j hi0lt (by omega)
        (by omega)).1
    have hlink : linkLoop cfg fs ddn.direct_blocks
        (ceilDiv m (fs.sb.block_size / cfg.direntrySize)) 0 =
        .ok (some (m / (fs.sb.block_size / cfg.direntrySize),
          m % (fs.sb.block_size / cfg.direntrySize),
          ⟨bi (m / (fs.sb.block_size / cfg.direntrySize)) % fs.sb.datastart +
            fs.sb.datastart,
          fs.data (bi (m / (fs.sb.block_size / cfg.direntrySize)) % fs.sb.datastart +
            fs.sb.datastart),
          fs.dents (bi (m / (fs.sb.block_size / cfg.direntrySize)) % fs.sb.datastart +
            fs.sb.datastart)⟩)) :=
      linkLoop_found cfg fs _ hds hmod _ _ _ hlinkpre hg0
        (by rw [haddr]; exact hbnb) hj0lt hfree0 hnz0
        (ceilDiv m (fs.sb.block_size / cfg.direntrySize)) 0 (Nat.zero_le _) hfB
    rw [haddr] at hlink
    have hoffeq : m % (fs.sb.block_size / cfg.direntrySize) * cfg.direntrySize +
        m / (fs.sb.block_size / cfg.direntrySize) *
          (fs.sb.block_size / cfg.direntrySize * cfg.direntrySize) =
        m * cfg.direntrySize := by
      rw [← Nat.mul_assoc, ← Nat.add_mul,
        show m % (fs.sb.block_size / cfg.direntrySize) +
          m / (fs.sb.block_size / cfg.direntrySize) *
            (fs.sb.block_size / cfg.direntrySize) = m from by omega]
    have hbput : b_put fs ⟨bi (m / (fs.sb.block_size / cfg.direntrySize)),
        fs.data (bi (m / (fs.sb.block_size / cfg.direntrySize))),
        upd (fs.dents (bi (m / (fs.sb.block_size / cfg.direntrySize))))
          (m % (fs.sb.block_size / cfg.direntrySize)) de⟩ =
        .ok { fs with
          data := upd fs.data (bi (m / (fs.sb.block_size / cfg.direntrySize)))
            (fs.data (bi (m / (fs.sb.block_size / cfg.direntrySize)))),
          dents := upd fs.dents (bi (m / (fs.sb.block_size / cfg.direntrySize)))
            (upd (fs.dents (bi (m / (fs.sb.block_size / cfg.direntrySize))))
              (m % (fs.sb.block_size / cfg.direntrySize)) de) } := by
      unfold b_put
      rw [if_pos hbnb]
    have hput1 : i_put cfg
        { fs with
          data := upd fs.data (bi (m / (fs.sb.block_size / cfg.direntrySize)))
            (fs.data (bi (m / (fs.sb.block_size / cfg.direntrySize)))),
          dents := upd fs.dents (bi (m / (fs.sb.block_size / cfg.direntrySize)))
            (upd (fs.dents (bi (m / (fs.sb.block_size / cfg.direntrySize))))
              (m % (fs.sb.block_size / cfg.direntrySize)) de) }
        (dinum, { ddn with size := m * cfg.direntrySize + cfg.direntrySize }) =
        .ok { fs with
          itable := upd fs.itable
            (fs.sb.inodestart + dinum / (fs.sb.block_size / cfg.dinodeSize))
            (upd (fs.itable (fs.sb.inodestart +
              dinum / (fs.sb.block_size / cfg.dinodeSize)))
              (dinum - fs.sb.block_size / cfg.dinodeSize *
                (dinum / (fs.sb.block_size / cfg.dinodeSize)))
              { ddn with size := m * cfg.direntrySize + cfg.direntrySize }),
          data := upd fs.data (bi (m / (fs.sb.block_size / cfg.direntrySize)))
            (fs.data (bi (m / (fs.sb.block_size / cfg.direntrySize)))),
          dents := upd fs.dents (bi (m / (fs.sb.block_size / cfg.direntrySize)))
            (upd (fs.dents (bi (m / (fs.sb.block_size / cfg.direntrySize))))
              (m % (fs.sb.block_size / cfg.direntrySize)) de) } :=
      i_put_eval cfg _ dinum _ hdn1 hdn2
    have hoff2 : m % (fs.sb.block_size / cfg.direntrySize) * cfg.direntrySize +
        m / (fs.sb.block_size / cfg.direntrySize) *
          (fs.sb.block_size - fs.sb.block_size % cfg.direntrySize) =
        m * cfg.direntrySize := by
      rw [hepb]
      exact hoffeq
    by_cases hkd : k = dinum
    · exact ⟨_, _, _, by
        simp only [dirlink]
        rw [if_neg (show ¬ (ddn.ft ≠ FType.TDir) from by
          rw [hft]; exact fun hc => hc rfl)]
        rw [hok]
        rw [if_neg (by simp)]
        simp only [htget]
        rw [if_neg (show ¬ (tdn.ft = FType.TFree) from htfree)]
        simp only [hde, hsize, hnvb, hlink, hbput]
        rw [hepb]
        rw [if_pos (show m * cfg.direntrySize <
          m % (fs.sb.block_size / cfg.direntrySize) * cfg.direntrySize +
          m / (fs.sb.block_size / cfg.direntrySize) *
            (fs.sb.block_size / cfg.direntrySize * cfg.direntrySize) +
          cfg.direntrySize from by rw [hoffeq]; omega)]
        simp only [hput1]
        rw [if_neg (show ¬ (k ≠ dinum) from fun hc => hc hkd)]
        rw [hoffeq], by
        rw [hkd]
        exact i_get_after_i_put cfg _ _ _ hput1, by
        refine Eq.trans (dirlookup_found_eval cfg _ dinum _ name k
          (dinum, { ddn with size := m * cfg.direntrySize + cfg.direntrySize })
          (m / (fs.sb.block_size / cfg.direntrySize))
          (m % (fs.sb.block_size / cfg.direntrySize))
          (bi (m / (fs.sb.block_size / cfg.direntrySize)))
          hds hmod ?_ ?_ ?_ ?_ ?_ ?_ ?_ ?_ ?_ ?_ ?_) ?_
        · exact hft
        · show ceilDiv (m * cfg.direntrySize + cfg.direntrySize)
            (fs.sb.block_size - fs.sb.block_size % cfg.direntrySize) =
            m / (fs.sb.block_size / cfg.direntrySize) + 1
          exact hnvb'
        · intro t ht
          obtain ⟨hg, hb1, hb2, hb3⟩ := hblocks t (by omega)
          have hbne : bi t ≠ bi (m / (fs.sb.block_size / cfg.direntrySize)) :=
            fun hc => by
              have := hinj t (m / (fs.sb.block_size / cfg.direntrySize)) (by omega)
                hi0lt hc
              omega
          refine ⟨bi t, hg, by omega, hb3, ?_⟩
          intro j hj
          have hj' : j < fs.sb.block_size / cfg.direntrySize := hj
          show get_name_str (upd fs.dents
            (bi (m / (fs.sb.block_size / cfg.direntrySize)))
            (upd (fs.dents (bi (m / (fs.sb.block_size / cfg.direntrySize))))
              (m % (fs.sb.block_size / cfg.direntrySize)) de) (bi t) j) ≠ name
          rw [upd_apply, if_neg hbne]
          by_cases hlt : t * (fs.sb.block_size / cfg.direntrySize) + j < m
          · exact (hfull t j (by omega) hj' hlt).2
          · exact hdflt_ne _ (hfree t j (by omega) hj' (by omega))
        · exact hg0
        · omega
        · exact hbnb
        · exact hj0lt
        · show get_name_str (upd fs.dents
            (bi (m / (fs.sb.block_size / cfg.direntrySize)))
            (upd (fs.dents (bi (m / (fs.sb.block_size / cfg.direntrySize))))
              (m % (fs.sb.block_size / cfg.direntrySize)) de)
            (bi (m / (fs.sb.block_size / cfg.direntrySize)))
            (m % (fs.sb.block_size / cfg.direntrySize))) = name
          rw [upd_apply, if_pos rfl, upd_apply, if_pos rfl]
          exact hden
        · show (upd fs.dents
            (bi (m / (fs.sb.block_size / cfg.direntrySize)))
            (upd (fs.dents (bi (m / (fs.sb.block_size / cfg.direntrySize))))
              (m % (fs.sb.block_size / cfg.direntrySize)) de)
            (bi (m / (fs.sb.block_size / cfg.direntrySize)))
            (m % (fs.sb.block_size / cfg.direntrySize))).inum = k
          rw [upd_apply, if_pos rfl, upd_apply, if_pos rfl]
          exact hdei
        · intro j hj
          show get_name_str (upd fs.dents
            (bi (m / (fs.sb.block_size / cfg.direntrySize)))
            (upd (fs.dents (bi (m / (fs.sb.block_size / cfg.direntrySize))))
              (m % (fs.sb.block_size / cfg.direntrySize)) de)
            (bi (m / (fs.sb.block_size / cfg.direntrySize))) j) ≠ name
          rw [upd_apply, if_pos rfl, upd_apply, if_neg (by omega)]
          exact (hfull (m / (fs.sb.block_size / cfg.direntrySize)) j hi0lt (by omega)
            (by omega)).2
        · rw [hkd]
          exact i_get_after_i_put cfg _ _ _ hput1
        · rw [hoff2]⟩
    · have htget2 := i_get_after_i_put_other cfg _ _
        (dinum, { ddn with size := m * cfg.direntrySize + cfg.direntrySize }) k hput1
        hkd (k, tdn) htget
      have hput2 := i_put_eval cfg
        { fs with
          itable := upd fs.itable
            (fs.sb.inodestart + dinum / (fs.sb.block_size / cfg.dinodeSize))
            (upd (fs.itable (fs.sb.inodestart +
              dinum / (fs.sb.block_size / cfg.dinodeSize)))
              (dinum - fs.sb.block_size / cfg.dinodeSize *
                (dinum / (fs.sb.block_size / cfg.dinodeSize)))
              { ddn with size := m * cfg.direntrySize + cfg.direntrySize }),
          data := upd fs.data (bi (m / (fs.sb.block_size / cfg.direntrySize)))
            (fs.data (bi (m / (fs.sb.block_size / cfg.direntrySize)))),
          dents := upd fs.dents (bi (m / (fs.sb.block_size / cfg.direntrySize)))
            (upd (fs.dents (bi (m / (fs.sb.block_size / cfg.direntrySize))))
              (m % (fs.sb.block_size / cfg.direntrySize)) de) }
        k { tdn with nlink := tdn.nlink + 1 } hki1 hki2
      exact ⟨_, _, _, by
        simp only [dirlink]
        rw [if_neg (show ¬ (ddn.ft ≠ FType.TDir) from by
          rw [hft]; exact fun hc => hc rfl)]
        rw [hok]
        rw [if_neg (by simp)]
        simp only [htget]
        rw [if_neg (show ¬ (tdn.ft = FType.TFree) from htfree)]
        simp only [hde, hsize, hnvb, hlink, hbput]
        rw [hepb]
        rw [if_pos (show m * cfg.direntrySize <
          m % (fs.sb.block_size / cfg.direntrySize) * cfg.direntrySize +
          m / (fs.sb.block_size / cfg.direntrySize) *
            (fs.sb.block_size / cfg.direntrySize * cfg.direntrySize) +
          cfg.direntrySize from by rw [hoffeq]; omega)]
        simp only [hput1]
        rw [if_pos (show k ≠ dinum from hkd)]
        simp only [htget2, hput2]
        rw [hoffeq], by
        exact i_get_after_i_put cfg _ _ _ hput2, by
        refine Eq.trans (dirlookup_found_eval cfg _ dinum _ name k
          (k, { tdn with nlink := tdn.nlink + 1 })
          (m / (fs.sb.block_size / cfg.direntrySize))
          (m % (fs.sb.block_size / cfg.direntrySize))
          (bi (m / (fs.sb.block_size / cfg.direntrySize)))
          hds hmod ?_ ?_ ?_ ?_ ?_ ?_ ?_ ?_ ?_ ?_ ?_) ?_
        · exact hft
        · show ceilDiv (m * cfg.direntrySize + cfg.direntrySize)
            (fs.sb.block_size - fs.sb.block_size % cfg.direntrySize) =
            m / (fs.sb.block_size / cfg.direntrySize) + 1
          exact hnvb'
        · intro t ht
          obtain ⟨hg, hb1, hb2, hb3⟩ := hblocks t (by omega)
          have hbne : bi t ≠ bi (m / (fs.sb.block_size / cfg.direntrySize)) :=
            fun hc => by
              have := hinj t (m / (fs.sb.block_size / cfg.direntrySize)) (by omega)
                hi0lt hc
              omega
          refine ⟨bi t, hg, by omega, hb3, ?_⟩
          intro j hj
          have hj' : j < fs.sb.block_size / cfg.direntrySize := hj
          show get_name_str (upd fs.dents
            (bi (m / (fs.sb.block_size / cfg.direntrySize)))
            (upd (fs.dents (bi (m / (fs.sb.block_size / cfg.direntrySize))))
              (m % (fs.sb.block_size / cfg.direntrySize)) de) (bi t) j) ≠ name
          rw [upd_apply, if_neg hbne]
          by_cases hlt : t * (fs.sb.block_size / cfg.direntrySize) + j < m
          · exact (hfull t j (by omega) hj' hlt).2
          · exact hdflt_ne _ (hfree t j (by omega) hj' (by omega))
        · exact hg0
        · omega
        · exact hbnb
        · exact hj0lt
        · show get_name_str (upd fs.dents
            (bi (m / (fs.sb.block_size / cfg.direntrySize)))
            (upd (fs.dents (bi (m / (fs.sb.block_size / cfg.direntrySize))))
              (m % (fs.sb.block_size / cfg.direntrySize)) de)
            (bi (m / (fs.sb.block_size / cfg.direntrySize)))
            (m % (fs.sb.block_size / cfg.direntrySize))) = name
          rw [upd_apply, if_pos rfl, upd_apply, if_pos rfl]
          exact hden
        · show (upd fs.dents
            (bi (m / (fs.sb.block_size / cfg.direntrySize)))
            (upd (fs.dents (bi (m / (fs.sb.block_size / cfg.direntrySize))))
              (m % (fs.sb.block_size / cfg.direntrySize)) de)
            (bi (m / (fs.sb.block_size / cfg.direntrySize)))
            (m % (fs.sb.block_size / cfg.direntrySize))).inum = k
          rw [upd_apply, if_pos rfl, upd_apply, if_pos rfl]
          exact hdei
        · intro j hj
          show get_name_str (upd fs.dents
            (bi (m / (fs.sb.block_size / cfg.direntrySize)))
            (upd (fs.dents (bi (m / (fs.sb.block_size / cfg.direntrySize))))
              (m % (fs.sb.block_size / cfg.direntrySize)) de)
            (bi (m / (fs.sb.block_size / cfg.direntrySize))) j) ≠ name
          rw [upd_apply, if_pos rfl, upd_apply, if_neg (by omega)]
          exact (hfull (m / (fs.sb.block_size / cfg.direntrySize)) j hi0lt (by omega)
            (by omega)).2
        · exact i_get_after_i_put cfg _ _ _ hput2
        · rw [hoff2]⟩
  · -- no free slot: a fresh block is allocated and appended
    have hB : ceilDiv m (fs.sb.block_size / cfg.direntrySize) =
        m / (fs.sb.block_size / cfg.direntrySize) := by
      rcases Nat.eq_zero_or_pos m with h0 | hm
      · rw [h0, Nat.zero_div]
        unfold ceilDiv
        rw [Nat.zero_add, show (fs.sb.block_size / cfg.direntrySize - 1) /
          (fs.sb.block_size / cfg.direntrySize) = 0 from Nat.div_eq_of_lt (by omega)]
      · exact ceilDiv_of_mod_eq _ _ hspb hmeq
    have hgB : m / (fs.sb.block_size / cfg.direntrySize) *
        (fs.sb.block_size / cfg.direntrySize) = m := by
      have hdm := Nat.div_add_mod m (fs.sb.block_size / cfg.direntrySize)
      have h2 : (fs.sb.block_size / cfg.direntrySize) *
          (m / (fs.sb.block_size / cfg.direntrySize)) =
          m / (fs.sb.block_size / cfg.direntrySize) *
            (fs.sb.block_size / cfg.direntrySize) := Nat.mul_comm _ _
      omega
    have hlinkB : linkLoop cfg fs ddn.direct_blocks
        (ceilDiv m (fs.sb.block_size / cfg.direntrySize)) 0 = .ok none := by
      refine linkLoop_none cfg fs _ hds hmod _ 0 ?_
      intro t ht1 ht2
      obtain ⟨hg, hb1, hb2, hb3⟩ := hblocks t (by omega)
      have haddr' : bi t % fs.sb.datastart + fs.sb.datastart = bi t :=
        ptr_mod _ _ hb1 hb2
      refine ⟨bi t, hg, by rw [haddr']; exact hb3, ?_⟩
      intro j hj
      rw [haddr']
      refine (hfull t j (by omega) hj ?_).1
      have ht' : t < m / (fs.sb.block_size / cfg.direntrySize) := by omega
      have h1 : (t + 1) * (fs.sb.block_size / cfg.direntrySize) ≤
          m / (fs.sb.block_size / cfg.direntrySize) *
            (fs.sb.block_size / cfg.direntrySize) :=
        Nat.mul_le_mul_right _ (by omega)
      have h2 : (t + 1) * (fs.sb.block_size / cfg.direntrySize) =
          t * (fs.sb.block_size / cfg.direntrySize) +
            (fs.sb.block_size / cfg.direntrySize) := by
        rw [Nat.succ_mul]
      omega
    obtain ⟨fsA, z, hba, hsbA, hitA, hbmA, hz1, hz2, hdataA, hdentsA⟩ :=
      b_alloc_step cfg fs M hbs0 hM hbm
    have hbgA : b_get fsA (M + fs.sb.datastart) =
        .ok ⟨M + fs.sb.datastart, fsA.data (M + fs.sb.datastart),
          fsA.dents (M + fs.sb.datastart)⟩ := by
      unfold b_get
      rw [hsbA, if_pos (by omega)]
    have hbputA : b_put fsA ⟨M + fs.sb.datastart, fsA.data (M + fs.sb.datastart),
        upd (fsA.dents (M + fs.sb.datastart)) 0 de⟩ =
        .ok { fsA with
          data := upd fsA.data (M + fs.sb.datastart)
            (fsA.data (M + fs.sb.datastart)),
          dents := upd fsA.dents (M + fs.sb.datastart)
            (upd (fsA.dents (M + fs.sb.datastart)) 0 de) } := by
      unfold b_put
      rw [hsbA, if_pos (show M + fs.sb.datastart < fs.sb.nblocks from by omega)]
    have hdn1A : dinum + 1 ≤ fsA.sb.ninodes := by
      rw [hsbA]
      exact hdn1
    have hdn2A : fsA.sb.inodestart + dinum / (fsA.sb.block_size / cfg.dinodeSize) <
        fsA.sb.nblocks := by
      rw [hsbA]
      exact hdn2
    have hki1A : k + 1 ≤ fsA.sb.ninodes := by
      rw [hsbA]
      exact hki1
    have hki2A : fsA.sb.inodestart + k / (fsA.sb.block_size / cfg.dinodeSize) <
        fsA.sb.nblocks := by
      rw [hsbA]
      exact hki2
    have htgetA : i_get cfg { fsA with
        data := upd fsA.data (M + fs.sb.datastart) (fsA.data (M + fs.sb.datastart)),
        dents := upd fsA.dents (M + fs.sb.datastart)
          (upd (fsA.dents (M + fs.sb.datastart)) 0 de) } k = .ok (k, tdn) := by
      simp only [i_get] at htget ⊢
      rw [hsbA, hitA]
      exact htget
    have hputB1 : i_put cfg { fsA with
        data := upd fsA.data (M + fs.sb.datastart) (fsA.data (M + fs.sb.datastart)),
        dents := upd fsA.dents (M + fs.sb.datastart)
          (upd (fsA.dents (M + fs.sb.datastart)) 0 de) }
        (dinum, { ddn with
                size := m * cfg.direntrySize + cfg.direntrySize,
                direct_blocks := ddn.direct_blocks.set
                  (ceilDiv m (fs.sb.block_size / cfg.direntrySize))
                  (M + fs.sb.datastart) }) =
        .ok { fsA with
          itable := upd fsA.itable
            (fsA.sb.inodestart + dinum / (fsA.sb.block_size / cfg.dinodeSize))
            (upd (fsA.itable (fsA.sb.inodestart +
              dinum / (fsA.sb.block_size / cfg.dinodeSize)))
              (dinum - fsA.sb.block_size / cfg.dinodeSize *
                (dinum / (fsA.sb.block_size / cfg.dinodeSize)))
              { ddn with
                size := m * cfg.direntrySize + cfg.direntrySize,
                direct_blocks := ddn.direct_blocks.set
                  (ceilDiv m (fs.sb.block_size / cfg.direntrySize))
                  (M + fs.sb.datastart) }),
          data := upd fsA.data (M + fs.sb.datastart) (fsA.data (M + fs.sb.datastart)),
          dents := upd fsA.dents (M + fs.sb.datastart)
            (upd (fsA.dents (M + fs.sb.datastart)) 0 de) } :=
      i_put_eval cfg _ dinum _ hdn1A hdn2A
    have hoffB : 0 * cfg.direntrySize +
        ceilDiv m (fs.sb.block_size / cfg.direntrySize) *
          (fs.sb.block_size - fs.sb.block_size % cfg.direntrySize) =
        m * cfg.direntrySize := by
      rw [hepb, hB, Nat.zero_mul, Nat.zero_add, ← Nat.mul_assoc, hgB]
    by_cases hkd : k = dinum
    · exact ⟨_, _, _, by
        simp only [dirlink]
        rw [if_neg (show ¬ (ddn.ft ≠ FType.TDir) from by
          rw [hft]; exact fun hc => hc rfl)]
        rw [hok]
        rw [if_neg (by simp)]
        simp only [htget]
        rw [if_neg (show ¬ (tdn.ft = FType.TFree) from htfree)]
        simp only [hde, hsize, hnvb, hlinkB, hba, hbgA, hbputA]
        rw [if_pos hBlen]
        simp only [hputB1]
        rw [if_neg (show ¬ (k ≠ dinum) from fun hc => hc hkd)]
        rw [show m * cfg.direntrySize + cfg.direntrySize - cfg.direntrySize =
          m * cfg.direntrySize from by omega], by
        rw [hkd]
        exact i_get_after_i_put cfg _ _ _ hputB1, by
        refine Eq.trans (dirlookup_found_eval cfg _ dinum _ name k
          (dinum, { ddn with
                size := m * cfg.direntrySize + cfg.direntrySize,
                direct_blocks := ddn.direct_blocks.set
                  (ceilDiv m (fs.sb.block_size / cfg.direntrySize))
                  (M + fs.sb.datastart) })
          (ceilDiv m (fs.sb.block_size / cfg.direntrySize)) 0
          (M + fs.sb.datastart)
          hds ?_ ?_ ?_ ?_ ?_ ?_ ?_ ?_ ?_ ?_ ?_ ?_) ?_
        · show fsA.sb.block_size % cfg.direntrySize ≠ 0
          rw [hsbA]
          exact hmod
        · exact hft
        · show ceilDiv (m * cfg.direntrySize + cfg.direntrySize)
            (fsA.sb.block_size - fsA.sb.block_size % cfg.direntrySize) =
            ceilDiv m (fs.sb.block_size / cfg.direntrySize) + 1
          rw [hsbA, hB]
          exact hnvb'
        · intro t ht
          obtain ⟨hg, hb1, hb2, hb3⟩ := hblocks t ht
          refine ⟨bi t, ?_, by omega, ?_, ?_⟩
          · show (ddn.direct_blocks.set
              (ceilDiv m (fs.sb.block_size / cfg.direntrySize))
              (M + fs.sb.datastart)).get? t = some (bi t)
            rw [List.get?_set_ne _ _
              (show ceilDiv m (fs.sb.block_size / cfg.direntrySize) ≠ t from by
                omega)]
            exact hg
          · show bi t < fsA.sb.nblocks
            rw [hsbA]
            exact hb3
          · intro j hj
            have hj' : j < fs.sb.block_size / cfg.direntrySize := by
              have hj2 : j < fsA.sb.block_size / cfg.direntrySize := hj
              rw [hsbA] at hj2
              exact hj2
            show get_name_str (upd fsA.dents (M + fs.sb.datastart)
              (upd (fsA.dents (M + fs.sb.datastart)) 0 de) (bi t) j) ≠ name
            rw [upd_apply, if_neg (show ¬ bi t = M + fs.sb.datastart from by
              have := hbiM t ht
              omega)]
            rw [hdentsA, upd_apply]
            by_cases hbz : bi t = z
            · rw [if_pos hbz]
              exact hdflt_ne _ rfl
            · rw [if_neg hbz]
              by_cases hlt : t * (fs.sb.block_size / cfg.direntrySize) + j < m
              · exact (hfull t j ht hj' hlt).2
              · exact hdflt_ne _ (hfree t j ht hj' (by omega))
        · show (ddn.direct_blocks.set
            (ceilDiv m (fs.sb.block_size / cfg.direntrySize))
            (M + fs.sb.datastart)).get?
            (ceilDiv m (fs.sb.block_size / cfg.direntrySize)) =
            some (M + fs.sb.datastart)
          exact List.get?_set_eq_of_lt _ hBlen
        · omega
        · show M + fs.sb.datastart < fsA.sb.nblocks
          rw [hsbA]
          omega
        · show 0 < fsA.sb.block_size / cfg.direntrySize
          rw [hsbA]
          exact hspb
        · show get_name_str (upd fsA.dents (M + fs.sb.datastart)
            (upd (fsA.dents (M + fs.sb.datastart)) 0 de) (M + fs.sb.datastart) 0) =
            name
          rw [upd_apply, if_pos rfl, upd_apply, if_pos rfl]
          exact hden
        · show (upd fsA.dents (M + fs.sb.datastart)
            (upd (fsA.dents (M + fs.sb.datastart)) 0 de)
            (M + fs.sb.datastart) 0).inum = k
          rw [upd_apply, if_pos rfl, upd_apply, if_pos rfl]
          exact hdei
        · intro j hj
          exact absurd hj (Nat.not_lt_zero j)
        · rw [hkd]
          exact i_get_after_i_put cfg _ _ _ hputB1
        · simp only [hsbA]
          rw [hoffB]⟩
    · have htgetB2 := i_get_after_i_put_other cfg _ _
        (dinum, { ddn with
                size := m * cfg.direntrySize + cfg.direntrySize,
                direct_blocks := ddn.direct_blocks.set
                  (ceilDiv m (fs.sb.block_size / cfg.direntrySize))
                  (M + fs.sb.datastart) }) k hputB1 hkd (k, tdn) htgetA
      have hputB2 := i_put_eval cfg
        { fsA with
          itable := upd fsA.itable
            (fsA.sb.inodestart + dinum / (fsA.sb.block_size / cfg.dinodeSize))
            (upd (fsA.itable (fsA.sb.inodestart +
              dinum / (fsA.sb.block_size / cfg.dinodeSize)))
              (dinum - fsA.sb.block_size / cfg.dinodeSize *
                (dinum / (fsA.sb.block_size / cfg.dinodeSize)))
              { ddn with
                size := m * cfg.direntrySize + cfg.direntrySize,
                direct_blocks := ddn.direct_blocks.set
                  (ceilDiv m (fs.sb.block_size / cfg.direntrySize))
                  (M + fs.sb.datastart) }),
          data := upd fsA.data (M + fs.sb.datastart) (fsA.data (M + fs.sb.datastart)),
          dents := upd fsA.dents (M + fs.sb.datastart)
            (upd (fsA.dents (M + fs.sb.datastart)) 0 de) }
        k { tdn with nlink := tdn.nlink + 1 } hki1A hki2A
      exact ⟨_, _, _, by
        simp only [dirlink]
        rw [if_neg (show ¬ (ddn.ft ≠ FType.TDir) from by
          rw [hft]; exact fun hc => hc rfl)]
        rw [hok]
        rw [if_neg (by simp)]
        simp only [htget]
        rw [if_neg (show ¬ (tdn.ft = FType.TFree) from htfree)]
        simp only [hde, hsize, hnvb, hlinkB, hba, hbgA, hbputA]
        rw [if_pos hBlen]
        simp only [hputB1]
        rw [if_pos (show k ≠ dinum from hkd)]
        simp only [htgetB2, hputB2]
        rw [show m * cfg.direntrySize + cfg.direntrySize - cfg.direntrySize =
          m * cfg.direntrySize from by omega], by
        exact i_get_after_i_put cfg _ _ _ hputB2, by
        refine Eq.trans (dirlookup_found_eval cfg _ dinum _ name k
          (k, { tdn with nlink := tdn.nlink + 1 })
          (ceilDiv m (fs.sb.block_size / cfg.direntrySize)) 0
          (M + fs.sb.datastart)
          hds ?_ ?_ ?_ ?_ ?_ ?_ ?_ ?_ ?_ ?_ ?_ ?_) ?_
        · show fsA.sb.block_size % cfg.direntrySize ≠ 0
          rw [hsbA]
          exact hmod
        · exact hft
        · show ceilDiv (m * cfg.direntrySize + cfg.direntrySize)
            (fsA.sb.block_size - fsA.sb.block_size % cfg.direntrySize) =
            ceilDiv m (fs.sb.block_size / cfg.direntrySize) + 1
          rw [hsbA, hB]
          exact hnvb'
        · intro t ht
          obtain ⟨hg, hb1, hb2, hb3⟩ := hblocks t ht
          refine ⟨bi t, ?_, by omega, ?_, ?_⟩
          · show (ddn.direct_blocks.set
              (ceilDiv m (fs.sb.block_size / cfg.direntrySize))
              (M + fs.sb.datastart)).get? t = some (bi t)
            rw [List.get?_set_ne _ _
              (show ceilDiv m (fs.sb.block_size / cfg.direntrySize) ≠ t from by
                omega)]
            exact hg
          · show bi t < fsA.sb.nblocks
            rw [hsbA]
            exact hb3
          · intro j hj
            have hj' : j < fs.sb.block_size / cfg.direntrySize := by
              have hj2 : j < fsA.sb.block_size / cfg.direntrySize := hj
              rw [hsbA] at hj2
              exact hj2
            show get_name_str (upd fsA.dents (M + fs.sb.datastart)
              (upd (fsA.dents (M + fs.sb.datastart)) 0 de) (bi t) j) ≠ name
            rw [upd_apply, if_neg (show ¬ bi t = M + fs.sb.datastart from by
              have := hbiM t ht
              omega)]
            rw [hdentsA, upd_apply]
            by_cases hbz : bi t = z
            · rw [if_pos hbz]
              exact hdflt_ne _ rfl
            · rw [if_neg hbz]
              by_cases hlt : t * (fs.sb.block_size / cfg.direntrySize) + j < m
              · exact (hfull t j ht hj' hlt).2
              · exact hdflt_ne _ (hfree t j ht hj' (by omega))
        · show (ddn.direct_blocks.set
            (ceilDiv m (fs.sb.block_size / cfg.direntrySize))
            (M + fs.sb.datastart)).get?
            (ceilDiv m (fs.sb.block_size / cfg.direntrySize)) =
            some (M + fs.sb.datastart)
          exact List.get?_set_eq_of_lt _ hBlen
        · omega
        · show M + fs.sb.datastart < fsA.sb.nblocks
          rw [hsbA]
          omega
        · show 0 < fsA.sb.block_size / cfg.direntrySize
          rw [hsbA]
          exact hspb
        · show get_name_str (upd fsA.dents (M + fs.sb.datastart)
            (upd (fsA.dents (M + fs.sb.datastart)) 0 de) (M + fs.sb.datastart) 0) =
            name
          rw [upd_apply, if_pos rfl, upd_apply, if_pos rfl]
          exact hden
        · show (upd fsA.dents (M + fs.sb.datastart)
            (upd (fsA.dents (M + fs.sb.datastart)) 0 de)
            (M + fs.sb.datastart) 0).inum = k
          rw [upd_apply, if_pos rfl, upd_apply, if_pos rfl]
          exact hdei
        · intro j hj
          exact absurd hj (Nat.not_lt_zero j)
        · exact i_get_after_i_put cfg _ _ _ hputB2
        · simp only [hsbA]
          rw [hoffB]⟩

/-- Geometry for the C7 scenarios: DINODE_SIZE 1, DIRENTRY_SIZE 3,
DIRNAME_SIZE 2, NDIRECT 12. -/
def cfgB : Cfg := ⟨1, 3, 2, 12⟩

/-- Directory inode for the C7 counterexample: one block of entries
(size 3 = one DIRENTRY_SIZE), stored at the absolute block 9, which lies
outside `[datastart, 2*datastart) = [3, 6)`. -/
def c7Dir : DInode := ⟨.TDir, 1, 3, [9, 0, 0, 0, 0, 0, 0, 0, 0, 0, 0, 0]⟩

/-- State for the C7 counterexample (block_size 7, nblocks 12, ninodes 3,
inodestart 1, ndatablocks 8, bmapstart 2, datastart 3): inode 1 is the
directory `c7Dir`, inode 2 is a file, every entry area is empty. -/
def c7FS : FS :=
  { sb := ⟨7, 12, 3, 1, 8, 2, 3⟩,
    itable := upd (fun _ _ => dfltDInode cfgB) 1
      (upd (upd (fun _ => dfltDInode cfgB) 1 c7Dir) 2
        ⟨.TFile, 0, 0, List.replicate 12 0⟩),
    bmap := fun _ => 0,
    data := fun _ _ => 0,
    dents := fun _ _ => dfltDirEntry cfgB }

/-- The successful result of the counterexample link (the fallback arm is
never taken). -/
def c7pair : FS × (Nat × DInode) × Nat :=
  match dirlink cfgB Char.isAlphanum c7FS (1, c7Dir) (['a']) 2 with
  | .ok p => p
  | .error _ => (c7FS, (0, dfltDInode cfgB), 99)

/-- Claim C7, counterexample.  With the directory's block pointer 9
outside `[datastart, 2*datastart)`, `dirlink` succeeds — it writes the
entry through `b_get(9 % 3 + 3) = b_get(3)` — and returns offset 0, but
the follow-up `dirlookup` reads `b_get(9)` raw, finds only empty names
and fails with `SearchedDirectoryDoesntExist` instead of returning
`(i_get(2), 0)`. -/
theorem C7_counterexample :
    dirlink cfgB Char.isAlphanum c7FS (1, c7Dir) (['a']) 2 =
      .ok (c7pair.1, c7pair.2.1, c7pair.2.2) ∧
    c7pair.2.2 = 0 ∧
    dirlookup cfgB c7pair.1 c7pair.2.1 (['a']) =
      .error .SearchedDirectoryDoesntExist :=
  ⟨rfl, by decide, rfl⟩

/-- Directory inode for the C7 witness: one entry (size 3), block
pointer 4 inside `[3, 6)`. -/
def c7wDir : DInode := ⟨.TDir, 1, 3, [4, 0, 0, 0, 0, 0, 0, 0, 0, 0, 0, 0]⟩

/-- State for the C7 witness: same geometry; block 4 holds one used
entry (inode 1, name `"b"`) in slot 0 and free slots elsewhere. -/
def c7wFS : FS :=
  { sb := ⟨7, 12, 3, 1, 8, 2, 3⟩,
    itable := upd (fun _ _ => dfltDInode cfgB) 1
      (upd (upd (fun _ => dfltDInode cfgB) 1 c7wDir) 2
        ⟨.TFile, 0, 0, List.replicate 12 0⟩),
    bmap := fun _ => 0,
    data := fun _ _ => 0,
    dents := fun b j => if b = 4 ∧ j = 0 then ⟨1, ['b', nulChar]⟩
      else dfltDirEntry cfgB }

/-- Claim C7, witness: the amended theorem on a one-entry directory with
an in-range block pointer — linking `"a"` to inode 2 lands in slot 1 of
block 4 (logical offset 3) and the follow-up lookup finds it there. -/
theorem C7_witness :
    (0 : Nat) < cfgB.direntrySize ∧
    (∃ fs' ddn' ko,
      dirlink cfgB Char.isAlphanum c7wFS (1, c7wDir) (['a']) 2 =
        .ok (fs', (1, ddn'), 1 * cfgB.direntrySize) ∧
      i_get cfgB fs' 2 = .ok ko ∧
      dirlookup cfgB fs' (1, ddn') (['a']) = .ok (ko, 1 * cfgB.direntrySize)) :=
  ⟨by decide,
    C7_link_lookup_roundtrip cfgB Char.isAlphanum c7wFS 1 c7wDir (['a']) 2
      ⟨.TFile, 0, 0, List.replicate 12 0⟩ ⟨2, ['a', nulChar]⟩ 1 0 (fun _ => 4)
      (by decide) (by decide) (by decide) (by decide) (by decide) (by decide)
      (by decide) (by decide)
      (by
        intro i h1
        rw [show ceilDiv 1 (c7wFS.sb.block_size / cfgB.direntrySize) = 1 from rfl]
          at h1
        have hi : i = 0 := by omega
        subst hi
        exact ⟨rfl, by decide, by decide, by decide⟩)
      (by
        intro i i' h1 h2 _
        rw [show ceilDiv 1 (c7wFS.sb.block_size / cfgB.direntrySize) = 1 from rfl]
          at h1 h2
        omega)
      (by
        intro i j h1 h2 h3
        rw [show ceilDiv 1 (c7wFS.sb.block_size / cfgB.direntrySize) = 1 from rfl]
          at h1
        rw [show c7wFS.sb.block_size / cfgB.direntrySize = 2 from rfl] at h2 h3
        have hi : i = 0 := by omega
        have hj : j = 0 := by omega
        subst hi
        subst hj
        exact ⟨by decide, by decide⟩)
      (by
        intro i j h1 h2 h3
        rw [show ceilDiv 1 (c7wFS.sb.block_size / cfgB.direntrySize) = 1 from rfl]
          at h1
        rw [show c7wFS.sb.block_size / cfgB.direntrySize = 2 from rfl] at h2 h3
        have hi : i = 0 := by omega
        have hj : j = 1 := by omega
        subst hi
        subst hj
        decide)
      rfl (by decide) (by decide) rfl (by decide) (by decide)
      (Or.inl (by decide))⟩

end FsSpec
